import Mathlib

/-!
Verification development for the pgsql-hackers-viewer ingestion pipeline.

This file contains a shallow embedding, in Lean 4, of the Go code of the
repository (mailbox parser, threading resolver, activity classifier and
ingestion reconciler), together with theorems settling the specification
claims about those components.

Modelling conventions, used throughout:
* Go strings are modelled as Lean `String` (sequences of Unicode scalar
  values).  All strings manipulated by the embedded code paths are valid
  UTF-8, for which this representation is byte-faithful; `sanitizeUTF8`
  (routes.go) returns its argument unchanged on valid UTF-8 strings and is
  therefore modelled as the identity.
* Go `time.Time` values are modelled as `Option Int` (seconds since the Unix
  epoch); `none` is the zero `time.Time` value.  The check
  `t.IsZero() || t.Year() < 1990` from the parser's validation gate becomes
  `none`, or `some t` with `t < year1990`, where `year1990` is the Unix
  timestamp of 1990-01-01.
* `time.Since(x).Hours() / 24` (a float64 in Go) is modelled as a rational
  number: the exact real value of this division is a rational in seconds.
* `uuid.New()` is modelled by a fresh-name counter threaded through the
  state; the only property the code relies on is freshness.
* Database relations (`threads`, `messages`) are modelled as in-memory lists
  of records; `SELECT ... LIMIT 1` without `ORDER BY` is modelled as
  first-match in list order, `UPDATE ... WHERE` as a row-wise map, and
  `INSERT ... ON CONFLICT` per its PostgreSQL semantics (an upsert that hits
  the conflict arm still reports one affected row).  The `thread_activities`
  relation is omitted: no claim mentions it and nothing else reads it.
-/

namespace PgHackers

/-! ### Activity Classifier (backend/analyzer/analyzer.go, ClassifyThread) -/

/-- The pure classification core of `ClassifyThread` (analyzer.go lines
44-57): the cascade of rules applied to the thread aggregates after the
keyword scan.  `daysSince` is `time.Since(lastMessageAt).Hours() / 24`,
modelled exactly as a rational. -/
def classifyStatus (hasPatch hasReview : Bool) (messageCount : Int)
    (daysSince : Rat) : String :=
  if hasPatch && (hasReview || messageCount > 3) then "in-progress"
  else if daysSince > 30 && messageCount < 5 then "abandoned"
  else if daysSince > 7 then "stalled"
  else "discussion"

/-- The classifier as the specification states it (spec section 4.4), written
from the spec's words for comparison with the code's `classifyStatus`. -/
def specClassifier (has_patch has_review : Bool) (message_count : Int)
    (days_since_last_activity : Rat) : String :=
  if has_patch ∧ (has_review ∨ message_count > 3) then "in-progress"
  else if days_since_last_activity > 30 ∧ message_count < 5 then "abandoned"
  else if days_since_last_activity > 7 then "stalled"
  else "discussion"

/-- C1: the code's classifier agrees with the spec's rule cascade on every
input, and the four boundary instances of the claim hold. -/
theorem classifyStatus_matches_spec :
    (∀ hp hr mc ds, classifyStatus hp hr mc ds = specClassifier hp hr mc ds)
    ∧ (∀ ds, classifyStatus true false 4 ds = "in-progress")
    ∧ (∀ ds, classifyStatus true false 3 ds ≠ "in-progress")
    ∧ (∀ hr, classifyStatus false hr 4 31 = "abandoned")
    ∧ (∀ hr, classifyStatus false hr 6 31 = "stalled") := by
  refine ⟨?_, ?_, ?_, ?_, ?_⟩
  · intro hp hr mc ds
    cases hp <;> cases hr <;>
      simp [classifyStatus, specClassifier]
  · intro ds
    simp [classifyStatus]
  · intro ds
    simp only [classifyStatus]
    norm_num
    split <;> first | decide | (split <;> decide)
  · intro hr
    simp only [classifyStatus]
    norm_num
  · intro hr
    simp only [classifyStatus]
    norm_num

/-! ### Go string primitives

Models of the `strings` package functions the repository uses.  Go strings
are byte sequences; all the strings flowing through the modelled code paths
are valid UTF-8, so Lean `String` (a sequence of Unicode scalar values,
which is exactly Go's rune view of a valid UTF-8 string) is byte-faithful
for them. -/

/-- `unicode.IsSpace` (the whitespace set `strings.TrimSpace` trims). -/
def isGoSpace (c : Char) : Bool :=
  c = '\t' || c = '\n' || c = (Char.ofNat 11) || c = (Char.ofNat 12) ||
  c = '\r' || c = ' ' || c = (Char.ofNat 0x85) || c = (Char.ofNat 0xA0) ||
  c = (Char.ofNat 0x1680) ||
  (Char.ofNat 0x2000 ≤ c && c ≤ Char.ofNat 0x200A) ||
  c = (Char.ofNat 0x2028) || c = (Char.ofNat 0x2029) ||
  c = (Char.ofNat 0x202F) || c = (Char.ofNat 0x205F) ||
  c = (Char.ofNat 0x3000)

/-- `strings.TrimSpace`. -/
def goTrimSpace (s : String) : String :=
  ⟨(s.data.dropWhile isGoSpace).reverse.dropWhile isGoSpace |>.reverse⟩

/-- `strings.Trim s cutset`: remove leading and trailing characters that
appear in `cutset`. -/
def goTrim (s : String) (cutset : List Char) : String :=
  ⟨(s.data.dropWhile (cutset.contains ·)).reverse.dropWhile (cutset.contains ·)
    |>.reverse⟩

/-- `strings.TrimLeft s cutset`. -/
def goTrimLeft (s : String) (cutset : List Char) : String :=
  ⟨s.data.dropWhile (cutset.contains ·)⟩

/-- `strings.TrimRight s cutset`. -/
def goTrimRight (s : String) (cutset : List Char) : String :=
  ⟨(s.data.reverse.dropWhile (cutset.contains ·)).reverse⟩

/-- `strings.ReplaceAll s old ""` for a single-character `old`. -/
def removeAllChar (s : String) (c : Char) : String :=
  ⟨s.data.filter (· ≠ c)⟩

/-- Whether the character list `p` occurs (contiguously) inside `h`. -/
def charListHasInfix : List Char → List Char → Bool
  | _, [] => true
  | [], _ :: _ => false
  | c :: t, p => p.isPrefixOf (c :: t) || charListHasInfix t p

/-- `strings.Contains`. -/
def strContains (s pat : String) : Bool :=
  charListHasInfix s.data pat.data

/-- Index of the first occurrence of `p` in `h`, as `strings.Index`. -/
def charListIndexOf : List Char → List Char → Option Nat
  | _, [] => some 0
  | [], _ :: _ => none
  | c :: t, p =>
      if p.isPrefixOf (c :: t) then some 0
      else (charListIndexOf t p).map (· + 1)

/-- `strings.Index s pat`: first occurrence, `none` models Go's `-1`. -/
def strIndexOf (s pat : String) : Option Nat :=
  charListIndexOf s.data pat.data

/-- `strings.SplitN s sep 2` when `strings.Contains s sep` holds: the text
before the first occurrence of `sep` and the text after it. -/
def splitOnceAt (s sep : String) : String × String :=
  match strIndexOf s sep with
  | some i => (⟨s.data.take i⟩, ⟨s.data.drop (i + sep.data.length)⟩)
  | none => (s, "")

/-- Go `strings.ToLower`, which on the ASCII range (the only range the
modelled call sites feed it) maps `A`-`Z` to `a`-`z`. -/
def asciiLowerChar (c : Char) : Char :=
  if 'A' ≤ c && c ≤ 'Z' then Char.ofNat (c.toNat + 32) else c

/-- `strings.ToLower` (ASCII-faithful, see `asciiLowerChar`). -/
def goToLower (s : String) : String :=
  ⟨s.data.map asciiLowerChar⟩

/-- `strings.HasPrefix`. -/
def goHasPrefix (s pre : String) : Bool :=
  pre.data.isPrefixOf s.data

/-- Splitting a character list on a separator character (every `strings.Split`
call in the repository uses a one-character separator). -/
def splitOnCharList (sep : Char) : List Char → List (List Char)
  | [] => [[]]
  | c :: t =>
    let r := splitOnCharList sep t
    if c = sep then [] :: r
    else
      match r with
      | [] => [[c]]
      | h :: t2 => (c :: h) :: t2

/-- `strings.Split s sep` for a one-character separator `sep`. -/
def goSplitChar (s : String) (sep : Char) : List String :=
  (splitOnCharList sep s.data).map (fun l => ⟨l⟩)

/-! ### Bytes, UTF-8 and base64 (encoding/base64 StdEncoding)

Go strings are byte sequences; `encoding/base64` works on bytes.  Bytes are
modelled as `Nat` values below 256.  `utf8Encode` is the UTF-8 byte
serialisation of a Lean `String` (= the bytes of the corresponding Go
string), and `goStringOfBytes` models Go's `string(bytes)` conversion on
valid UTF-8 data (the only data the claims route through it; Go keeps
invalid bytes raw, which a Lean `String` cannot hold, so invalid data
decodes to `none` and is mapped to `""`). -/

/-- UTF-8 serialisation of one Unicode scalar value. -/
def utf8EncodeChar (c : Char) : List Nat :=
  let n := c.toNat
  if n < 0x80 then [n]
  else if n < 0x800 then [0xC0 + n / 64, 0x80 + n % 64]
  else if n < 0x10000 then
    [0xE0 + n / 4096, 0x80 + (n / 64) % 64, 0x80 + n % 64]
  else
    [0xF0 + n / 262144, 0x80 + (n / 4096) % 64, 0x80 + (n / 64) % 64,
      0x80 + n % 64]

/-- UTF-8 bytes of a string. -/
def utf8Encode (s : String) : List Nat :=
  s.data.foldr (fun c acc => utf8EncodeChar c ++ acc) []

/-- Decode the first scalar value of a UTF-8 byte stream (strict: rejects
overlong forms, surrogates and out-of-range values). -/
def utf8DecodeFirst : List Nat → Option (Nat × List Nat)
  | [] => none
  | b :: rest =>
    if b < 0x80 then some (b, rest)
    else if b < 0xC2 then none
    else if b < 0xE0 then
      match rest with
      | b2 :: r =>
          if 0x80 ≤ b2 && b2 < 0xC0 then some ((b - 0xC0) * 64 + (b2 - 0x80), r)
          else none
      | [] => none
    else if b < 0xF0 then
      match rest with
      | b2 :: b3 :: r =>
          if 0x80 ≤ b2 && b2 < 0xC0 && 0x80 ≤ b3 && b3 < 0xC0 then
            let n := (b - 0xE0) * 4096 + (b2 - 0x80) * 64 + (b3 - 0x80)
            if 0x800 ≤ n && !(0xD800 ≤ n && n < 0xE000) then some (n, r) else none
          else none
      | _ => none
    else if b < 0xF5 then
      match rest with
      | b2 :: b3 :: b4 :: r =>
          if 0x80 ≤ b2 && b2 < 0xC0 && 0x80 ≤ b3 && b3 < 0xC0 &&
              0x80 ≤ b4 && b4 < 0xC0 then
            let n := (b - 0xF0) * 262144 + (b2 - 0x80) * 4096 +
              (b3 - 0x80) * 64 + (b4 - 0x80)
            if 0x10000 ≤ n && n < 0x110000 then some (n, r) else none
          else none
      | _ => none
    else none

theorem utf8DecodeFirst_length {bs : List Nat} {n : Nat} {r : List Nat}
    (h : utf8DecodeFirst bs = some (n, r)) : r.length < bs.length := by
  unfold utf8DecodeFirst at h
  repeat' split at h
  all_goals simp_all
  all_goals omega

/-- Decode a full UTF-8 byte stream into scalar values; `none` on any
invalid sequence.  Each step consumes at least one byte, so fuel equal to
the byte count is always sufficient (`utf8DecodeFuel_congr`). -/
def utf8DecodeFuel : Nat → List Nat → Option (List Char)
  | _, [] => some []
  | 0, _ :: _ => none
  | fuel + 1, b :: t =>
      match utf8DecodeFirst (b :: t) with
      | none => none
      | some (n, r) =>
          match utf8DecodeFuel fuel r with
          | some cs => some (Char.ofNat n :: cs)
          | none => none

/-- Decode a full UTF-8 byte stream. -/
def utf8DecodeAll (bs : List Nat) : Option (List Char) :=
  utf8DecodeFuel bs.length bs

theorem utf8DecodeFuel_congr :
    ∀ (f1 f2 : Nat) (bs : List Nat), bs.length ≤ f1 → bs.length ≤ f2 →
      utf8DecodeFuel f1 bs = utf8DecodeFuel f2 bs := by
  intro f1
  induction f1 with
  | zero =>
    intro f2 bs h1 h2
    match bs with
    | [] =>
      match f2 with
      | 0 => rfl
      | k + 1 => rfl
    | b :: t => simp at h1
  | succ k ih =>
    intro f2 bs h1 h2
    match bs with
    | [] =>
      match f2 with
      | 0 => rfl
      | m + 1 => rfl
    | b :: t =>
      match f2 with
      | 0 => simp at h2
      | m + 1 =>
        simp only [utf8DecodeFuel]
        cases hfst : utf8DecodeFirst (b :: t) with
        | none => simp [hfst]
        | some nr =>
          obtain ⟨n, r⟩ := nr
          have hr : r.length < (b :: t).length := utf8DecodeFirst_length hfst
          simp only [List.length_cons] at h1 h2 hr
          simp only [hfst]
          rw [ih m r (by omega) (by omega)]

/-- Go's `string(bytes)` on valid UTF-8 byte data. -/
def goStringOfBytes (bs : List Nat) : String :=
  match utf8DecodeAll bs with
  | some cs => ⟨cs⟩
  | none => ""

/-- The base64 standard alphabet, by sextet value. -/
def b64Char (k : Nat) : Char :=
  "ABCDEFGHIJKLMNOPQRSTUVWXYZabcdefghijklmnopqrstuvwxyz0123456789+/".data.getD k 'A'

/-- Value of a base64 alphabet character. -/
def b64Val (c : Char) : Option Nat :=
  (List.range 64).findIdx? (fun k => b64Char k = c) |>.map id

/-- `base64.StdEncoding.EncodeToString`, chunked three bytes at a time. -/
def b64EncodeBytes : List Nat → List Char
  | [] => []
  | [b1] => [b64Char (b1 / 4), b64Char (b1 % 4 * 16), '=', '=']
  | [b1, b2] =>
      [b64Char (b1 / 4), b64Char (b1 % 4 * 16 + b2 / 16),
        b64Char (b2 % 16 * 4), '=']
  | b1 :: b2 :: b3 :: rest =>
      b64Char (b1 / 4) :: b64Char (b1 % 4 * 16 + b2 / 16) ::
        b64Char (b2 % 16 * 4 + b3 / 64) :: b64Char (b3 % 64) ::
        b64EncodeBytes rest

/-- Base64 encoding of a byte list, as a string. -/
def b64Encode (bs : List Nat) : String := ⟨b64EncodeBytes bs⟩

/-- `base64.StdEncoding.DecodeString`, four characters at a time; `none`
models a decode error (Go's `StdEncoding` does not reject unused trailing
bits, and padding may appear only in the final quantum). -/
def b64DecodeChars : List Char → Option (List Nat)
  | [] => some []
  | a :: b :: c :: d :: rest =>
      match b64Val a, b64Val b with
      | some va, some vb =>
        if c = '=' && d = '=' && rest.isEmpty then
          some [va * 4 + vb / 16]
        else if d = '=' && rest.isEmpty then
          match b64Val c with
          | some vc => some [va * 4 + vb / 16, vb % 16 * 16 + vc / 4]
          | none => none
        else
          match b64Val c, b64Val d with
          | some vc, some vd =>
              (b64DecodeChars rest).map
                (fun tl => (va * 4 + vb / 16) :: (vb % 16 * 16 + vc / 4) ::
                  (vc % 4 * 64 + vd) :: tl)
          | _, _ => none
      | _, _ => none
  | _ => none

/-- Base64 decoding of a string. -/
def b64Decode (s : String) : Option (List Nat) := b64DecodeChars s.data

theorem char_valid_ranges (c : Char) :
    c.toNat < 0xD800 ∨ (0xE000 ≤ c.toNat ∧ c.toNat < 0x110000) := by
  have h := c.valid
  simp only [UInt32.isValidChar, Nat.isValidChar, Char.toNat] at h ⊢
  omega

theorem utf8DecodeFirst_encodeChar (c : Char) (r : List Nat) :
    utf8DecodeFirst (utf8EncodeChar c ++ r) = some (c.toNat, r) := by
  have hv := char_valid_ranges c
  simp only [utf8EncodeChar]
  split_ifs with h1 h2 h3
  · simp only [List.cons_append, List.nil_append, utf8DecodeFirst]
    rw [if_pos (by omega)]
  · simp only [List.cons_append, List.nil_append, utf8DecodeFirst]
    rw [if_neg (by omega), if_neg (by omega), if_pos (by omega),
      if_pos (by simp; omega)]
    have : (0xC0 + c.toNat / 64 - 0xC0) * 64 + (0x80 + c.toNat % 64 - 0x80)
        = c.toNat := by omega
    rw [this]
  · simp only [List.cons_append, List.nil_append, utf8DecodeFirst]
    rw [if_neg (by omega), if_neg (by omega), if_neg (by omega),
      if_pos (by omega), if_pos (by simp; omega)]
    have he : (0xE0 + c.toNat / 4096 - 0xE0) * 4096 +
        (0x80 + c.toNat / 64 % 64 - 0x80) * 64 + (0x80 + c.toNat % 64 - 0x80)
        = c.toNat := by omega
    rw [he, if_pos (by simp; omega)]
  · simp only [List.cons_append, List.nil_append, utf8DecodeFirst]
    rw [if_neg (by omega), if_neg (by omega), if_neg (by omega),
      if_neg (by omega), if_pos (by omega), if_pos (by simp; omega)]
    have he : (0xF0 + c.toNat / 262144 - 0xF0) * 262144 +
        (0x80 + c.toNat / 4096 % 64 - 0x80) * 4096 +
        (0x80 + c.toNat / 64 % 64 - 0x80) * 64 + (0x80 + c.toNat % 64 - 0x80)
        = c.toNat := by omega
    rw [he, if_pos (by simp; omega)]

theorem utf8EncodeChar_ne_nil (c : Char) : utf8EncodeChar c ≠ [] := by
  simp only [utf8EncodeChar]
  split_ifs <;> simp

theorem utf8DecodeFuel_encode (cs : List Char) :
    ∀ fuel, (cs.foldr (fun c acc => utf8EncodeChar c ++ acc) []).length ≤ fuel →
      utf8DecodeFuel fuel (cs.foldr (fun c acc => utf8EncodeChar c ++ acc) [])
        = some cs := by
  induction cs with
  | nil => intro fuel h; cases fuel <;> rfl
  | cons c tl ih =>
    intro fuel h
    rw [List.foldr_cons] at h ⊢
    have hlen : 1 ≤ (utf8EncodeChar c).length :=
      List.length_pos.mpr (utf8EncodeChar_ne_nil c)
    obtain ⟨b, bt, hb⟩ : ∃ b bt, utf8EncodeChar c ++
        (tl.foldr (fun c acc => utf8EncodeChar c ++ acc) []) = b :: bt := by
      cases henc : utf8EncodeChar c with
      | nil => exact absurd henc (utf8EncodeChar_ne_nil c)
      | cons x xs =>
        exact ⟨x, xs ++ tl.foldr (fun c acc => utf8EncodeChar c ++ acc) [],
          by simp [henc]⟩
    match fuel with
    | 0 =>
      exfalso
      rw [hb] at h
      simp at h
    | f + 1 =>
      rw [hb]
      simp only [utf8DecodeFuel]
      rw [← hb, utf8DecodeFirst_encodeChar]
      have hrest : (tl.foldr (fun c acc => utf8EncodeChar c ++ acc) []).length
          ≤ f := by
        rw [List.length_append] at h
        omega
      simp only [ih f hrest, Char.ofNat_toNat]

theorem utf8DecodeAll_encode (cs : List Char) :
    utf8DecodeAll (cs.foldr (fun c acc => utf8EncodeChar c ++ acc) []) =
      some cs :=
  utf8DecodeFuel_encode cs _ le_rfl

/-- Round trip: Go's `string(bytes)` applied to the UTF-8 bytes of `s`
gives back `s`. -/
theorem goStringOfBytes_utf8Encode (s : String) :
    goStringOfBytes (utf8Encode s) = s := by
  rw [goStringOfBytes, utf8Encode, utf8DecodeAll_encode]

theorem b64Val_b64Char {k : Nat} (hk : k < 64) :
    b64Val (b64Char k) = some k := by
  interval_cases k <;> rfl

theorem b64Char_ne_pad {k : Nat} (hk : k < 64) : b64Char k ≠ '=' := by
  interval_cases k <;> decide

theorem b64Char_not_space {k : Nat} (hk : k < 64) :
    isGoSpace (b64Char k) = false := by
  interval_cases k <;> decide

theorem b64Char_ne_dash {k : Nat} (hk : k < 64) : b64Char k ≠ '-' := by
  interval_cases k <;> decide

theorem b64Char_ne_newline {k : Nat} (hk : k < 64) : b64Char k ≠ '\n' := by
  interval_cases k <;> decide

/-- Every byte produced by the UTF-8 encoder is below 256. -/
theorem utf8EncodeChar_lt_256 (c : Char) : ∀ b ∈ utf8EncodeChar c, b < 256 := by
  have hv := char_valid_ranges c
  intro b hb
  simp only [utf8EncodeChar] at hb
  split_ifs at hb <;> simp only [List.mem_cons, List.not_mem_nil, or_false] at hb <;>
    omega

theorem utf8Encode_lt_256 (s : String) : ∀ b ∈ utf8Encode s, b < 256 := by
  rw [utf8Encode]
  induction s.data with
  | nil => simp
  | cons c tl ih =>
    intro b hb
    simp only [List.foldr_cons, List.mem_append] at hb
    rcases hb with hb | hb
    · exact utf8EncodeChar_lt_256 c b hb
    · exact ih b hb

/-- Every character of a base64 encoding of bytes is an alphabet character
or the padding character. -/
theorem b64EncodeBytes_mem (bs : List Nat) (hbs : ∀ b ∈ bs, b < 256) :
    ∀ c ∈ b64EncodeBytes bs, (∃ k, k < 64 ∧ c = b64Char k) ∨ c = '=' := by
  induction bs using b64EncodeBytes.induct with
  | case1 => intro c hc; simp [b64EncodeBytes] at hc
  | case2 b1 =>
    have hb1 : b1 < 256 := hbs b1 (by simp)
    intro c hc
    simp only [b64EncodeBytes, List.mem_cons, List.not_mem_nil, or_false] at hc
    rcases hc with h | h | h | h
    · exact Or.inl ⟨b1 / 4, by omega, h⟩
    · exact Or.inl ⟨b1 % 4 * 16, by omega, h⟩
    · exact Or.inr h
    · exact Or.inr h
  | case3 b1 b2 =>
    have hb1 : b1 < 256 := hbs b1 (by simp)
    have hb2 : b2 < 256 := hbs b2 (by simp)
    intro c hc
    simp only [b64EncodeBytes, List.mem_cons, List.not_mem_nil, or_false] at hc
    rcases hc with h | h | h | h
    · exact Or.inl ⟨b1 / 4, by omega, h⟩
    · exact Or.inl ⟨b1 % 4 * 16 + b2 / 16, by omega, h⟩
    · exact Or.inl ⟨b2 % 16 * 4, by omega, h⟩
    · exact Or.inr h
  | case4 b1 b2 b3 rest ih =>
    have hb1 : b1 < 256 := hbs b1 (by simp)
    have hb2 : b2 < 256 := hbs b2 (by simp)
    have hb3 : b3 < 256 := hbs b3 (by simp)
    have hrest : ∀ b ∈ rest, b < 256 := fun b hb => hbs b (by simp [hb])
    intro c hc
    simp only [b64EncodeBytes, List.mem_cons] at hc
    rcases hc with h | h | h | h | h
    · exact Or.inl ⟨b1 / 4, by omega, h⟩
    · exact Or.inl ⟨b1 % 4 * 16 + b2 / 16, by omega, h⟩
    · exact Or.inl ⟨b2 % 16 * 4 + b3 / 64, by omega, h⟩
    · exact Or.inl ⟨b3 % 64, by omega, h⟩
    · exact ih hrest c h

/-- Decoding inverts encoding on byte lists. -/
theorem b64DecodeChars_encodeBytes (bs : List Nat) (h : ∀ b ∈ bs, b < 256) :
    b64DecodeChars (b64EncodeBytes bs) = some bs := by
  induction bs using b64EncodeBytes.induct with
  | case1 => rfl
  | case2 b1 =>
    have hb1 : b1 < 256 := h b1 (by simp)
    simp only [b64EncodeBytes, b64DecodeChars]
    rw [b64Val_b64Char (by omega), b64Val_b64Char (by omega)]
    simp only [List.isEmpty_nil, and_true]
    rw [if_pos (by decide)]
    simp only [Option.some.injEq, List.cons.injEq, and_true]
    omega
  | case3 b1 b2 =>
    have hb1 : b1 < 256 := h b1 (by simp)
    have hb2 : b2 < 256 := h b2 (by simp)
    have v1 : b64Val (b64Char (b1 / 4)) = some (b1 / 4) :=
      b64Val_b64Char (by omega)
    have v2 : b64Val (b64Char (b1 % 4 * 16 + b2 / 16)) =
        some (b1 % 4 * 16 + b2 / 16) := b64Val_b64Char (by omega)
    have v3 : b64Val (b64Char (b2 % 16 * 4)) = some (b2 % 16 * 4) :=
      b64Val_b64Char (by omega)
    have h3 : ¬ (b64Char (b2 % 16 * 4) = '=') :=
      b64Char_ne_pad (by omega)
    simp [b64EncodeBytes, b64DecodeChars, v1, v2, v3, h3]
    omega
  | case4 b1 b2 b3 rest ih =>
    have hb1 : b1 < 256 := h b1 (by simp)
    have hb2 : b2 < 256 := h b2 (by simp)
    have hb3 : b3 < 256 := h b3 (by simp)
    have hrest : ∀ b ∈ rest, b < 256 := fun b hb => h b (by simp [hb])
    have v1 : b64Val (b64Char (b1 / 4)) = some (b1 / 4) :=
      b64Val_b64Char (by omega)
    have v2 : b64Val (b64Char (b1 % 4 * 16 + b2 / 16)) =
        some (b1 % 4 * 16 + b2 / 16) := b64Val_b64Char (by omega)
    have v3 : b64Val (b64Char (b2 % 16 * 4 + b3 / 64)) =
        some (b2 % 16 * 4 + b3 / 64) := b64Val_b64Char (by omega)
    have v4 : b64Val (b64Char (b3 % 64)) = some (b3 % 64) :=
      b64Val_b64Char (by omega)
    have h3 : ¬ (b64Char (b2 % 16 * 4 + b3 / 64) = '=') :=
      b64Char_ne_pad (by omega)
    have h4 : ¬ (b64Char (b3 % 64) = '=') := b64Char_ne_pad (by omega)
    simp [b64EncodeBytes, b64DecodeChars, v1, v2, v3, v4, h3, h4, ih hrest]
    omega

/-- Round trip at string level. -/
theorem b64Decode_b64Encode (bs : List Nat) (h : ∀ b ∈ bs, b < 256) :
    b64Decode (b64Encode bs) = some bs :=
  b64DecodeChars_encodeBytes bs h

/-! ### Body decoding (backend/parser/mbox.go, decodeMessageBody and the
MIME multipart scanner) -/

/-- Value of a hexadecimal digit. -/
def hexDigitVal (c : Char) : Option Nat :=
  if '0' ≤ c && c ≤ '9' then some (c.toNat - 48)
  else if 'A' ≤ c && c ≤ 'F' then some (c.toNat - 55)
  else if 'a' ≤ c && c ≤ 'f' then some (c.toNat - 87)
  else none

/-- Quoted-printable decoding to bytes; `none` models a read error.  This
models `mime/quotedprintable` on well-formed input; every claim below
exercises only the base64 arm of its callers. -/
def qpDecodeChars : List Char → Option (List Nat)
  | [] => some []
  | '=' :: '\r' :: '\n' :: r => qpDecodeChars r
  | '=' :: '\n' :: r => qpDecodeChars r
  | '=' :: a :: b :: r =>
      match hexDigitVal a, hexDigitVal b with
      | some x, some y => (qpDecodeChars r).map (fun t => (x * 16 + y) :: t)
      | _, _ => none
  | '=' :: _ => none
  | c :: r => (qpDecodeChars r).map (fun t => utf8EncodeChar c ++ t)

/-- `quotedprintable.NewReader` + `io.ReadAll`, with the caller's
return-original-on-error behaviour left to the call sites. -/
def goQPDecode (s : String) : Option String :=
  (qpDecodeChars s.data).map goStringOfBytes

/-- `decodePartBody` (mbox.go lines 564-589): decode one MIME part body
according to its transfer encoding; on a decode error the (possibly
newline-stripped) input is returned. -/
def decodePartBody (body encoding : String) : String :=
  let body := goTrimSpace body
  if encoding = "base64" then
    let body := removeAllChar (removeAllChar body '\n') '\r'
    match b64Decode body with
    | some bytes => goStringOfBytes bytes
    | none => body
  else if encoding = "quoted-printable" then
    match goQPDecode body with
    | some s => s
    | none => body
  else body

/-- `extractBoundary` applied to one line of its input. -/
def extractBoundaryLine (line : String) : Option String :=
  let lineLower := goToLower line
  if strContains lineLower "boundary=" then
    match strIndexOf lineLower "boundary=" with
    | some idx =>
      let value : String := ⟨line.data.drop (idx + 9)⟩
      let value := goTrimSpace value
      let value := goTrim value ['"']
      let value := goTrim value ['\'']
      let value :=
        match value.data.findIdx? (fun c => c = ';' || c = '\n' || c = '\r') with
        | some i => (⟨value.data.take i⟩ : String)
        | none => value
      let value := goTrimSpace value
      if value.data.length > 0 then some value else none
    | none => none
  else none

/-- `extractBoundary` (mbox.go lines 532-561): first line that yields a
nonempty boundary value wins; otherwise `""`. -/
def extractBoundary (body : String) : String :=
  ((goSplitChar body (Char.ofNat 10)).findSome? extractBoundaryLine).getD ""

/-- State of the MIME multipart line scanner of `decodeMimeMultipart`. -/
structure MimePartState where
  result : String
  inPart : Bool
  partEncoding : String
  partContentType : String
  isAttachment : Bool
  partBody : String
  headersDone : Bool
deriving Repr, DecidableEq

/-- Appending a finished part to the scanner's result (the body of the
boundary branch and of the end-of-input save in `decodeMimeMultipart`). -/
def mimeFlushPart (st : MimePartState) : String :=
  if st.inPart && strContains st.partContentType "text/" && !st.isAttachment then
    let decoded := decodePartBody st.partBody st.partEncoding
    let result :=
      if st.result.data.length > 0 && decoded.data.length > 0 then
        st.result ++ "\n\n---\n\n"
      else st.result
    if decoded.data.length > 0 then result ++ decoded else result
  else st.result

/-- One line of the `decodeMimeMultipart` scan. -/
def mimeStep (boundary : String) (st : MimePartState) (line : String) :
    MimePartState :=
  if goHasPrefix line ("--" ++ boundary) then
    { result := mimeFlushPart st, inPart := true, partEncoding := "",
      partContentType := "", isAttachment := false, partBody := "",
      headersDone := false }
  else if !st.inPart then st
  else if !st.headersDone && goTrimSpace line = "" then
    { st with headersDone := true }
  else if !st.headersDone then
    let lineLower := goToLower line
    if goHasPrefix lineLower "content-type:" then
      { st with partContentType := lineLower }
    else if goHasPrefix lineLower "content-transfer-encoding:" then
      if strContains line ":" then
        { st with partEncoding := goToLower (goTrimSpace (splitOnceAt line ":").2) }
      else st
    else if goHasPrefix lineLower "content-disposition:" &&
        strContains lineLower "attachment" then
      { st with isAttachment := true }
    else st
  else if strContains st.partContentType "text/" && !st.isAttachment then
    { st with partBody := st.partBody ++ line ++ "\n" }
  else st

/-- `decodeMimeMultipart` (mbox.go lines 437-529). -/
def decodeMimeMultipart (body contentType : String) : String :=
  let boundary := extractBoundary contentType
  if boundary = "" then body
  else
    let st := (goSplitChar body (Char.ofNat 10)).foldl (mimeStep boundary)
      { result := "", inPart := false, partEncoding := "",
        partContentType := "", isAttachment := false, partBody := "",
        headersDone := false }
    let finalResult := mimeFlushPart st
    if finalResult.data.length > 0 then goTrimSpace finalResult else body

/-- `decodeMessageBody` (mbox.go lines 392-433). -/
def decodeMessageBody (body encoding contentType : String) : String :=
  let body := goTrimSpace body
  if strContains (goToLower contentType) "multipart" &&
      strContains contentType "boundary=" then
    decodeMimeMultipart body contentType
  else if encoding = "base64" then
    match b64Decode body with
    | some bytes => goStringOfBytes bytes
    | none =>
      let body := removeAllChar (removeAllChar body '\n') '\r'
      match b64Decode body with
      | some bytes => goStringOfBytes bytes
      | none => body
  else if encoding = "quoted-printable" then
    match goQPDecode body with
    | some s => s
    | none => body
  else body

/-! ### C9 machinery: the base64 line inside a constructed multipart body -/

theorem dropWhile_eq_self_of_not {p : Char → Bool} {l : List Char}
    (h : ∀ c ∈ l, p c = false) : l.dropWhile p = l := by
  cases l with
  | nil => rfl
  | cons c t => rw [List.dropWhile_cons, if_neg (by simp [h c (by simp)])]

theorem splitOnCharList_cons_sep (sep : Char) (b : List Char) :
    splitOnCharList sep (sep :: b) = [] :: splitOnCharList sep b := by
  simp [splitOnCharList]

theorem splitOnCharList_no_sep {sep : Char} {l : List Char}
    (h : ∀ c ∈ l, c ≠ sep) : splitOnCharList sep l = [l] := by
  induction l with
  | nil => rfl
  | cons c t ih =>
    have hc : c ≠ sep := h c (by simp)
    have ht : ∀ x ∈ t, x ≠ sep := fun x hx => h x (by simp [hx])
    simp only [splitOnCharList, ih ht, if_neg hc]

theorem splitOnCharList_append {sep : Char} {a b : List Char}
    (h : ∀ c ∈ a, c ≠ sep) :
    splitOnCharList sep (a ++ sep :: b) = a :: splitOnCharList sep b := by
  induction a with
  | nil => simp [splitOnCharList_cons_sep]
  | cons c t ih =>
    have hc : c ≠ sep := h c (by simp)
    have ht : ∀ x ∈ t, x ≠ sep := fun x hx => h x (by simp [hx])
    simp only [List.cons_append, splitOnCharList, List.append_eq, ih ht,
      if_neg hc]

/-- The base64 text of `T`, as it appears on its own line of the multipart
body constructed in the C9 claim. -/
def mimeEncodedText (T : String) : String := b64Encode (utf8Encode T)

theorem mimeEncodedText_chars (T : String) :
    ∀ c ∈ (mimeEncodedText T).data, isGoSpace c = false ∧ c ≠ '-' := by
  intro c hc
  have hm := b64EncodeBytes_mem (utf8Encode T) (utf8Encode_lt_256 T) c hc
  rcases hm with ⟨k, hk, rfl⟩ | rfl
  · exact ⟨b64Char_not_space hk, b64Char_ne_dash hk⟩
  · exact ⟨by decide, by decide⟩

theorem utf8Encode_ne_nil {T : String} (h : T ≠ "") : utf8Encode T ≠ [] := by
  rw [utf8Encode]
  cases hd : T.data with
  | nil => exact absurd (by cases T; simp_all) h
  | cons c t =>
    simp only [List.foldr_cons]
    intro hcontra
    exact utf8EncodeChar_ne_nil c (List.append_eq_nil.mp hcontra).1

theorem b64EncodeBytes_head {bs : List Nat} (hne : bs ≠ [])
    (hlt : ∀ b ∈ bs, b < 256) :
    ∃ k rest, k < 64 ∧ b64EncodeBytes bs = b64Char k :: rest := by
  match bs with
  | [] => exact absurd rfl hne
  | [b1] => exact ⟨b1 / 4, _, by have := hlt b1 (by simp); omega, rfl⟩
  | [b1, b2] => exact ⟨b1 / 4, _, by have := hlt b1 (by simp); omega, rfl⟩
  | b1 :: b2 :: b3 :: r =>
    exact ⟨b1 / 4, _, by have := hlt b1 (by simp); omega, rfl⟩

theorem mimeEncodedText_data_ne_nil {T : String} (hT : T ≠ "") :
    (mimeEncodedText T).data ≠ [] := by
  obtain ⟨k, rest, hk, hrest⟩ :=
    b64EncodeBytes_head (utf8Encode_ne_nil hT) (utf8Encode_lt_256 T)
  show b64EncodeBytes (utf8Encode T) ≠ []
  rw [hrest]
  simp

theorem goHasPrefix_mimeEncodedText (T : String) (hT : T ≠ "") :
    goHasPrefix (mimeEncodedText T) "--bnd" = false := by
  obtain ⟨k, rest, hk, hrest⟩ :=
    b64EncodeBytes_head (utf8Encode_ne_nil hT) (utf8Encode_lt_256 T)
  rw [goHasPrefix]
  rw [show "--bnd".data = ['-', '-', 'b', 'n', 'd'] from rfl]
  rw [show (mimeEncodedText T).data = b64EncodeBytes (utf8Encode T) from rfl,
    hrest]
  have hne : ('-' == b64Char k) = false := by
    simp only [beq_eq_false_iff_ne, ne_eq]
    exact fun he => b64Char_ne_dash hk he.symm
  simp [List.isPrefixOf, hne]

theorem goTrimSpace_append_newline {s : String} (hne : s.data ≠ [])
    (h : ∀ c ∈ s.data, isGoSpace c = false) :
    goTrimSpace (s ++ "\n") = s := by
  rw [goTrimSpace]
  have hd : (s ++ "\n").data = s.data ++ ['\n'] := rfl
  rw [hd]
  obtain ⟨c, t, hct⟩ := List.exists_cons_of_ne_nil hne
  rw [hct, List.cons_append, List.dropWhile_cons,
    if_neg (by simp [h c (by rw [hct]; simp)])]
  rw [show (c :: (t ++ ['\n'])).reverse = '\n' :: (c :: t).reverse by simp]
  rw [List.dropWhile_cons, if_pos (by decide)]
  rw [dropWhile_eq_self_of_not
    (fun x hx => h x (by rw [hct]; exact List.mem_reverse.mp hx))]
  rw [List.reverse_reverse]
  cases s
  simp_all

theorem removeAllChar_eq_self {s : String} {c0 : Char}
    (h : ∀ c ∈ s.data, c ≠ c0) : removeAllChar s c0 = s := by
  rw [removeAllChar, List.filter_eq_self.mpr (by intro a ha; simpa using h a ha)]

/-- Decoding the part body of the constructed message gives back `T`. -/
theorem decodePartBody_base64_enc (T : String) (hT : T ≠ "") :
    decodePartBody (mimeEncodedText T ++ "\n") "base64" = T := by
  have hchars := mimeEncodedText_chars T
  have hnl : ∀ c ∈ (mimeEncodedText T).data, c ≠ '\n' := by
    intro c hc he
    have := (hchars c hc).1
    rw [he] at this
    simp [isGoSpace] at this
  have hcr : ∀ c ∈ (mimeEncodedText T).data, c ≠ '\r' := by
    intro c hc he
    have := (hchars c hc).1
    rw [he] at this
    simp [isGoSpace] at this
  simp only [decodePartBody, if_true]
  rw [goTrimSpace_append_newline (mimeEncodedText_data_ne_nil hT)
    (fun c hc => (hchars c hc).1)]
  rw [removeAllChar_eq_self hnl, removeAllChar_eq_self hcr]
  rw [show mimeEncodedText T = b64Encode (utf8Encode T) from rfl]
  simp only [b64Decode_b64Encode _ (utf8Encode_lt_256 T)]
  exact goStringOfBytes_utf8Encode T

/-- The multipart body the C9 claim constructs: one part with Content-Type
text/plain, Content-Transfer-Encoding base64, no attachment disposition,
whose part body is the base64 encoding of `T`. -/
def mimePartMessage (T : String) : String :=
  "--bnd\nContent-Type: text/plain; charset=utf-8\nContent-Transfer-Encoding: base64\n\n"
    ++ mimeEncodedText T ++ "\n--bnd--"

/-- The containing message's Content-Type header value. -/
def mimeContentTypeHeader : String := "multipart/mixed; boundary=\"bnd\""

theorem mimePartMessage_lines (T : String) :
    goSplitChar (mimePartMessage T) '\n' =
      ["--bnd", "Content-Type: text/plain; charset=utf-8",
        "Content-Transfer-Encoding: base64", "", mimeEncodedText T,
        "--bnd--"] := by
  have hnl : ∀ c ∈ (mimeEncodedText T).data, c ≠ '\n' := by
    intro c hc he
    have := (mimeEncodedText_chars T c hc).1
    rw [he] at this
    simp [isGoSpace] at this
  rw [goSplitChar]
  have hd0 : (mimePartMessage T).data =
      ("--bnd\nContent-Type: text/plain; charset=utf-8\nContent-Transfer-Encoding: base64\n\n" : String).data
        ++ (mimeEncodedText T).data ++ ("\n--bnd--" : String).data := rfl
  have hd3 : (mimePartMessage T).data =
      "--bnd".data ++ '\n' ::
        ("Content-Type: text/plain; charset=utf-8".data ++ '\n' ::
          ("Content-Transfer-Encoding: base64".data ++ '\n' :: '\n' ::
            ((mimeEncodedText T).data ++ '\n' :: "--bnd--".data))) := by
    rw [hd0]
    simp only [List.append_assoc, List.cons_append, List.nil_append]
  rw [hd3]
  rw [splitOnCharList_append (by decide), splitOnCharList_append (by decide),
    splitOnCharList_append (by decide), splitOnCharList_cons_sep,
    splitOnCharList_append hnl, splitOnCharList_no_sep (by decide)]
  simp only [List.map_cons, List.map_nil]

/-- C9 (amended): for nonempty `T`, the constructed single-part multipart
message decodes, through the multipart body decoder, back to `T` up to
leading/trailing whitespace trimming. -/
theorem decodeMimeMultipart_roundtrip (T : String) (hT : T ≠ "") :
    decodeMimeMultipart (mimePartMessage T) mimeContentTypeHeader =
      goTrimSpace T := by
  have henc := goHasPrefix_mimeEncodedText T hT
  have hTlen : T.data.length > 0 := by
    cases T with
    | mk d =>
      cases d with
      | nil => simp_all
      | cons c t => simp
  simp only [decodeMimeMultipart]
  rw [show extractBoundary mimeContentTypeHeader = "bnd" from by decide]
  rw [if_neg (by decide), mimePartMessage_lines]
  simp only [List.foldl_cons, List.foldl_nil]
  rw [show mimeStep "bnd"
      (MimePartState.mk "" false "" "" false "" false) "--bnd" =
      MimePartState.mk "" true "" "" false "" false from by decide]
  rw [show mimeStep "bnd" (MimePartState.mk "" true "" "" false "" false)
      "Content-Type: text/plain; charset=utf-8" =
      MimePartState.mk "" true ""
        "content-type: text/plain; charset=utf-8" false "" false from by decide]
  rw [show mimeStep "bnd" (MimePartState.mk "" true ""
        "content-type: text/plain; charset=utf-8" false "" false)
      "Content-Transfer-Encoding: base64" =
      MimePartState.mk "" true "base64"
        "content-type: text/plain; charset=utf-8" false "" false from by decide]
  rw [show mimeStep "bnd" (MimePartState.mk "" true "base64"
        "content-type: text/plain; charset=utf-8" false "" false) "" =
      MimePartState.mk "" true "base64"
        "content-type: text/plain; charset=utf-8" false "" true from by decide]
  have hct : strContains "content-type: text/plain; charset=utf-8" "text/"
      = true := by decide
  have e5 : mimeStep "bnd" (MimePartState.mk "" true "base64"
        "content-type: text/plain; charset=utf-8" false "" true)
      (mimeEncodedText T) =
      MimePartState.mk "" true "base64"
        "content-type: text/plain; charset=utf-8" false
        ("" ++ mimeEncodedText T ++ "\n") true := by
    rw [mimeStep, show ("--" ++ "bnd" : String) = "--bnd" from rfl, henc]
    simp [hct]
  rw [e5]
  have e6 : mimeStep "bnd" (MimePartState.mk "" true "base64"
        "content-type: text/plain; charset=utf-8" false
        ("" ++ mimeEncodedText T ++ "\n") true) "--bnd--" =
      MimePartState.mk (mimeFlushPart (MimePartState.mk "" true "base64"
        "content-type: text/plain; charset=utf-8" false
        ("" ++ mimeEncodedText T ++ "\n") true)) true "" "" false "" false := by
    rw [mimeStep,
      if_pos (show goHasPrefix "--bnd--" ("--" ++ "bnd") = true from by decide)]
  rw [e6]
  have hflush : mimeFlushPart (MimePartState.mk "" true "base64"
      "content-type: text/plain; charset=utf-8" false
      ("" ++ mimeEncodedText T ++ "\n") true) = T := by
    rw [mimeFlushPart,
      if_pos (show (true && strContains
        "content-type: text/plain; charset=utf-8" "text/" && !false) = true
        from by decide)]
    rw [show ("" ++ mimeEncodedText T ++ "\n" : String) =
      mimeEncodedText T ++ "\n" from rfl]
    rw [decodePartBody_base64_enc T hT]
    simp only [hTlen]
    simp [hTlen]
  rw [hflush]
  have hflush2 : mimeFlushPart (MimePartState.mk T true "" "" false "" false)
      = T := by
    rw [mimeFlushPart,
      if_neg (show ¬ ((true && strContains "" "text/" && !false) = true)
        from by decide)]
  rw [hflush2, if_pos hTlen]

/-- Witness for C9: the amended round-trip theorem applied at T = "hello". -/
theorem decodeMimeMultipart_roundtrip_witness :
    "hello" ≠ "" ∧
      decodeMimeMultipart (mimePartMessage "hello") mimeContentTypeHeader =
        goTrimSpace "hello" :=
  ⟨by decide, decodeMimeMultipart_roundtrip "hello" (by decide)⟩

/-- C9 counterexample: at T = "" (the empty UTF-8 text, whose base64
encoding is the empty part body) the multipart decoder finds no nonempty
text part and returns the raw multipart body, not T-up-to-trimming. -/
theorem decodeMimeMultipart_empty_not_roundtrip :
    decodeMimeMultipart (mimePartMessage "") mimeContentTypeHeader ≠
      goTrimSpace "" := by
  decide

/-! ### Patch detection (mbox.go, detectPatch and detectPatchStatus) -/

/-- `detectPatch` (mbox.go lines 592-626). -/
def detectPatch (body subject : String) : Bool :=
  let bodyLower := goToLower body
  let subjectLower := goToLower subject
  strContains subjectLower "[patch" || strContains subjectLower "patch v" ||
  strContains subjectLower "v1 patch" || strContains subjectLower "v2 patch" ||
  strContains body "diff --git" || strContains body "--- a/" ||
  strContains body "+++ b/" ||
  (strContains body "*** " && strContains body "--- ") ||
  strContains bodyLower "attached patch" ||
  strContains bodyLower "patch attached" ||
  strContains bodyLower ".patch" ||
  strContains bodyLower "content-disposition: attachment"

/-- `detectPatchStatus` (mbox.go lines 629-665). -/
def detectPatchStatus (body subject : String) : String :=
  let bodyLower := goToLower body
  let subjectLower := goToLower subject
  if strContains bodyLower "committed" || strContains bodyLower "pushed" ||
      strContains bodyLower "applied" || strContains subjectLower "committed" then
    "committed"
  else if strContains bodyLower "ready for committer" ||
      strContains bodyLower "marked as ready" ||
      strContains bodyLower "moved to ready for committer" then
    "accepted"
  else if strContains bodyLower "rejected" ||
      strContains bodyLower "not applying" ||
      strContains bodyLower "returned with feedback" then
    "rejected"
  else if strContains bodyLower "commitfest" ||
      strContains bodyLower "cf entry" ||
      strContains subjectLower "commitfest" then
    "proposed"
  else "proposed"

/-! ### Message records (backend/models/models.go) -/

/-- `models.Message`, with the Go zero value as field defaults (`createdAt`
`none` is the zero `time.Time`). -/
structure Message where
  id : String := ""
  threadId : String := ""
  messageId : String := ""
  inReplyTo : String := ""
  refersTo : String := ""
  subject : String := ""
  author : String := ""
  authorEmail : String := ""
  body : String := ""
  createdAt : Option Int := none
  hasPatch : Bool := false
  patchStatus : String := ""
  commitfestId : String := ""
deriving Repr, DecidableEq, Inhabited

/-! ### Mailbox parser (backend/parser/mbox.go) -/

/-- `ParseStats` (mbox.go lines 20-28). -/
structure ParseStats where
  total : Nat := 0
  parsed : Nat := 0
  skipped : Nat := 0
  invalidMessageID : Nat := 0
  invalidDate : Nat := 0
  invalidFrom : Nat := 0
  malformedMessageID : Nat := 0
deriving Repr, DecidableEq, Inhabited

/-- Unix timestamp of 1990-01-01T00:00:00Z.  For a `time.Time` modelled as
unix seconds `t`, `t.Year() < 1990` is `t < year1990`; the zero `time.Time`
(year 1) is modelled as `none` and is always invalid. -/
def year1990 : Int := 631152000

/-- Environment of one parse run: `time.Parse` for a given layout string
(`none` models a parse error), and the run's `time.Now()`. -/
structure ParserEnv where
  parseFormat : String → String → Option Int
  now : Int

/-- The fixed ordered list of date layouts tried by `parseDate` (mbox.go
lines 371-378): RFC1123Z, RFC1123, then four explicit layouts (the third
entry repeats RFC1123Z, exactly as in the source). -/
def dateFormats : List String :=
  ["Mon, 02 Jan 2006 15:04:05 -0700", "Mon, 02 Jan 2006 15:04:05 MST",
    "Mon, 02 Jan 2006 15:04:05 -0700", "Mon, 2 Jan 2006 15:04:05 -0700",
    "02 Jan 2006 15:04:05 -0700", "2 Jan 2006 15:04:05 -0700"]

/-- `parseDate` (mbox.go lines 369-388): try the layouts in order; if every
layout fails, "Default to now if parsing fails" — the current time is
returned. -/
def parseDate (env : ParserEnv) (dateStr : String) : Int :=
  match dateFormats.findSome? (fun fmt => env.parseFormat fmt dateStr) with
  | some t => t
  | none => env.now

/-- `cleanMessageID` (mbox.go lines 46-65): trim whitespace and angle
brackets, remove internal spaces and tabs; `none` models the error return
(empty value, or no "@"). -/
def cleanMessageID (msgid : String) : Option String :=
  let m := goTrim (goTrimSpace msgid) ['<', '>']
  let m := removeAllChar m ' '
  let m := removeAllChar m '\t'
  if m = "" then none
  else if !strContains m "@" then none
  else some m

/-- `generateFallbackMessageID` (mbox.go lines 68-70); `uuid.New()` is
modelled by the run's fresh-name counter. -/
def generateFallbackMessageID (counter : Nat) : String :=
  "generated-" ++ toString counter ++ "@pgsql-analyzer.local"

/-- One pass of `normalizeSubject`'s prefix stripping. -/
def stripSubjectPrefixes (s : String) : String :=
  ["Re:", "RE:", "Fwd:", "FWD:", "Fw:"].foldl
    (fun acc p =>
      if goHasPrefix acc p then goTrimSpace (acc.drop p.data.length) else acc)
    s

/-- The fixed-point loop of `normalizeSubject`; each productive pass
strictly shrinks the subject, so `length + 1` passes always reach the fixed
point the Go loop reaches. -/
def normalizeSubjectLoop : Nat → String → String
  | 0, s => s
  | n + 1, s =>
    let s2 := stripSubjectPrefixes s
    if s2 = s then s else normalizeSubjectLoop n s2

/-- `normalizeSubject` (mbox.go lines 336-350). -/
def normalizeSubject (s : String) : String :=
  let s := goTrimSpace s
  normalizeSubjectLoop (s.data.length + 1) s

/-- `parseFromHeader` (mbox.go lines 353-366). -/
def parseFromHeader (fromVal : String) : String × String :=
  if strContains fromVal "<" && strContains fromVal ">" then
    let parts := goSplitChar fromVal '<'
    let name := goTrimSpace (parts.headD "")
    let email := goTrimRight (goTrimLeft (parts.getD 1 "") ['<']) ['>']
    if name = "" then (email, email) else (name, email)
  else (fromVal, fromVal)

/-- The data `processHeader` reads and writes: the message under
construction, the two content locals, the statistics and the fresh-name
counter. -/
structure HeaderTarget where
  msg : Message := {}
  cte : String := ""
  contentType : String := ""
  stats : ParseStats := {}
  uuidCounter : Nat := 0
deriving Repr, DecidableEq, Inhabited

/-- `processHeader` (mbox.go lines 73-107). -/
def processHeader (env : ParserEnv) (header value : String)
    (t : HeaderTarget) : HeaderTarget :=
  if header = "message-id" then
    match cleanMessageID value with
    | some c => { t with msg := { t.msg with messageId := c } }
    | none =>
      { t with
        msg := { t.msg with
          messageId := generateFallbackMessageID t.uuidCounter },
        stats := { t.stats with
          malformedMessageID := t.stats.malformedMessageID + 1 },
        uuidCounter := t.uuidCounter + 1 }
  else if header = "in-reply-to" then
    match cleanMessageID value with
    | some c => { t with msg := { t.msg with inReplyTo := c } }
    | none => t
  else if header = "references" then
    { t with msg := { t.msg with refersTo := value } }
  else if header = "subject" then
    { t with msg := { t.msg with subject := normalizeSubject value } }
  else if header = "from" then
    let ne := parseFromHeader value
    { t with msg := { t.msg with author := ne.1, authorEmail := ne.2 } }
  else if header = "date" then
    { t with msg := { t.msg with createdAt := some (parseDate env value) } }
  else if header = "content-transfer-encoding" then
    { t with cte := goToLower (goTrimSpace value) }
  else if header = "content-type" then
    { t with contentType := value }
  else t

/-- State of the `ParseMboxFile` line scan. -/
structure ParseState where
  stats : ParseStats := {}
  messages : List Message := []
  current : Option Message := none
  body : String := ""
  cte : String := ""
  contentType : String := ""
  inBody : Bool := false
  lastHeader : String := ""
  lastValue : String := ""
  uuidCounter : Nat := 0
deriving Repr, DecidableEq, Inhabited

/-- Apply a pending header (the `if lastHeader != "" && currentMessage !=
nil { processHeader(...) }` blocks of `ParseMboxFile`). -/
def applyPendingHeader (env : ParserEnv) (st : ParseState) : ParseState :=
  match st.current with
  | none => st
  | some msg =>
    if st.lastHeader ≠ "" then
      let r := processHeader env st.lastHeader st.lastValue
        ⟨msg, st.cte, st.contentType, st.stats, st.uuidCounter⟩
      { st with
        current := some r.msg,
        cte := r.cte,
        contentType := r.contentType,
        stats := r.stats,
        uuidCounter := r.uuidCounter }
    else st

/-- Finish and validate one message: decode the body, run patch detection,
then the mandatory-field gate (mbox.go lines 141-167 and 223-248); returns
updated statistics and output list. -/
def flushMessage (msg : Message) (body cte contentType : String)
    (stats : ParseStats) (messages : List Message) :
    ParseStats × List Message :=
  let decodedBody := decodeMessageBody body cte contentType
  let hasPatch := detectPatch decodedBody msg.subject
  let msg := { msg with
    body := decodedBody,
    hasPatch := hasPatch,
    patchStatus :=
      if hasPatch then detectPatchStatus decodedBody msg.subject
      else msg.patchStatus }
  if msg.messageId = "" then
    ({ stats with
       skipped := stats.skipped + 1,
       invalidMessageID := stats.invalidMessageID + 1 }, messages)
  else if msg.author = "" && msg.authorEmail = "" then
    ({ stats with
       skipped := stats.skipped + 1,
       invalidFrom := stats.invalidFrom + 1 }, messages)
  else if (match msg.createdAt with
           | none => true
           | some t => decide (t < year1990)) then
    ({ stats with
       skipped := stats.skipped + 1,
       invalidDate := stats.invalidDate + 1 }, messages)
  else
    ({ stats with parsed := stats.parsed + 1 }, messages ++ [msg])

/-- Flush the current message, if any, into the statistics and output list
(the save blocks of `ParseMboxFile`). -/
def flushState (st : ParseState) : ParseState :=
  match st.current with
  | none => st
  | some msg =>
    let r := flushMessage msg st.body st.cte st.contentType st.stats
      st.messages
    { st with stats := r.1, messages := r.2 }

/-- `stats.Total++` at a `From ` line. -/
def bumpTotal (st : ParseState) : ParseState :=
  { st with stats := { st.stats with total := st.stats.total + 1 } }

/-- Reset the per-message locals and begin a fresh message
(`currentMessage = &models.Message{}` and friends). -/
def startNewMessage (st : ParseState) : ParseState :=
  { st with
    current := some {},
    body := "",
    cte := "",
    contentType := "",
    inBody := false,
    lastHeader := "",
    lastValue := "" }

/-- One line of the `ParseMboxFile` scan (mbox.go lines 128-220). -/
def parseLine (env : ParserEnv) (st : ParseState) (line : String) :
    ParseState :=
  if goHasPrefix line "From " then
    startNewMessage (flushState (applyPendingHeader env (bumpTotal st)))
  else
    match st.current with
    | none => st
    | some _ =>
      if !st.inBody && goTrimSpace line = "" then
        let st :=
          if st.lastHeader ≠ "" then
            { applyPendingHeader env st with lastHeader := "", lastValue := "" }
          else st
        { st with inBody := true }
      else if !st.inBody then
        if line.data.length > 0 &&
            (line.data.headD ' ' = ' ' || line.data.headD ' ' = '\t') then
          { st with lastValue := st.lastValue ++ " " ++ goTrimSpace line }
        else if strContains line ": " then
          let st := applyPendingHeader env st
          let parts := splitOnceAt line ": "
          { st with
            lastHeader := goToLower (goTrimSpace parts.1),
            lastValue := goTrimSpace parts.2 }
        else st
      else
        { st with body := st.body ++ line ++ "\n" }

/-- The end-of-input save of `ParseMboxFile` (lines 223-248; note the source
does not apply a pending header here). -/
def parseFinish (st : ParseState) : ParseState :=
  flushState st

/-- `ParseMboxFile` (mbox.go lines 110-258) over the lines of one file. -/
def parseMboxLines (env : ParserEnv) (lines : List String) :
    List Message × ParseStats :=
  let st := parseFinish (lines.foldl (parseLine env) {})
  (st.messages, st.stats)

/-! ### Parse statistics accounting (C10) -/

theorem processHeader_stats (env : ParserEnv) (header value : String)
    (t : HeaderTarget) :
    (processHeader env header value t).stats.total = t.stats.total ∧
    (processHeader env header value t).stats.parsed = t.stats.parsed ∧
    (processHeader env header value t).stats.skipped = t.stats.skipped ∧
    (processHeader env header value t).stats.invalidMessageID
      = t.stats.invalidMessageID ∧
    (processHeader env header value t).stats.invalidFrom
      = t.stats.invalidFrom ∧
    (processHeader env header value t).stats.invalidDate
      = t.stats.invalidDate := by
  simp only [processHeader]
  split_ifs <;>
    first
    | simp
    | (rcases hcl : cleanMessageID value with _ | c <;> simp [hcl])

theorem applyPendingHeader_frame (env : ParserEnv) (st : ParseState) :
    (applyPendingHeader env st).stats.total = st.stats.total ∧
    (applyPendingHeader env st).stats.parsed = st.stats.parsed ∧
    (applyPendingHeader env st).stats.skipped = st.stats.skipped ∧
    (applyPendingHeader env st).stats.invalidMessageID
      = st.stats.invalidMessageID ∧
    (applyPendingHeader env st).stats.invalidFrom = st.stats.invalidFrom ∧
    (applyPendingHeader env st).stats.invalidDate = st.stats.invalidDate ∧
    (applyPendingHeader env st).messages = st.messages ∧
    (applyPendingHeader env st).current.isSome = st.current.isSome := by
  simp only [applyPendingHeader]
  rcases hc : st.current with _ | msg
  · simp [hc]
  · split_ifs with hlh
    · have hp := processHeader_stats env st.lastHeader st.lastValue
        ⟨msg, st.cte, st.contentType, st.stats, st.uuidCounter⟩
      simp_all
    · simp [hc]

theorem flushMessage_cases (msg : Message) (body cte ct : String)
    (stats : ParseStats) (messages : List Message) :
    (flushMessage msg body cte ct stats messages).1.total = stats.total ∧
    (flushMessage msg body cte ct stats messages).1.malformedMessageID
      = stats.malformedMessageID ∧
    (((flushMessage msg body cte ct stats messages).1.parsed
        = stats.parsed + 1 ∧
      (flushMessage msg body cte ct stats messages).1.skipped
        = stats.skipped ∧
      (flushMessage msg body cte ct stats messages).1.invalidMessageID
        = stats.invalidMessageID ∧
      (flushMessage msg body cte ct stats messages).1.invalidFrom
        = stats.invalidFrom ∧
      (flushMessage msg body cte ct stats messages).1.invalidDate
        = stats.invalidDate ∧
      (flushMessage msg body cte ct stats messages).2.length
        = messages.length + 1) ∨
     ((flushMessage msg body cte ct stats messages).1.parsed
        = stats.parsed ∧
      (flushMessage msg body cte ct stats messages).1.skipped
        = stats.skipped + 1 ∧
      (flushMessage msg body cte ct stats messages).1.invalidMessageID
        + (flushMessage msg body cte ct stats messages).1.invalidFrom
        + (flushMessage msg body cte ct stats messages).1.invalidDate
        = stats.invalidMessageID + stats.invalidFrom + stats.invalidDate + 1 ∧
      (flushMessage msg body cte ct stats messages).2 = messages)) := by
  by_cases hhp : detectPatch (decodeMessageBody body cte ct) msg.subject <;>
  by_cases h1 : msg.messageId = "" <;>
  by_cases h2 : msg.author = "" <;>
  by_cases h3 : msg.authorEmail = "" <;>
  by_cases hd : (match msg.createdAt with
    | none => true
    | some t => decide (t < year1990)) = true <;>
  simp [flushMessage, hhp, h1, h2, h3, hd] <;> omega

/-- The parse-loop accounting invariant: every message begun at a `From `
delimiter is pending, parsed or skipped; each skip has exactly one
reason. -/
def statsInv (st : ParseState) : Prop :=
  st.stats.total = st.stats.parsed + st.stats.skipped +
    (if st.current.isSome then 1 else 0) ∧
  st.stats.skipped = st.stats.invalidMessageID + st.stats.invalidFrom +
    st.stats.invalidDate ∧
  st.stats.parsed = st.messages.length

theorem flushState_acc {st : ParseState}
    (h2 : st.stats.skipped = st.stats.invalidMessageID + st.stats.invalidFrom
      + st.stats.invalidDate)
    (h3 : st.stats.parsed = st.messages.length) :
    (flushState st).stats.total = st.stats.total ∧
    (flushState st).stats.parsed + (flushState st).stats.skipped
      = st.stats.parsed + st.stats.skipped
        + (if st.current.isSome then 1 else 0) ∧
    (flushState st).stats.skipped
      = (flushState st).stats.invalidMessageID
        + (flushState st).stats.invalidFrom
        + (flushState st).stats.invalidDate ∧
    (flushState st).stats.parsed = (flushState st).messages.length := by
  simp only [flushState]
  rcases hc : st.current with _ | msg
  · simp [h2, h3]
  · have hf := flushMessage_cases msg st.body st.cte st.contentType st.stats
      st.messages
    obtain ⟨f1, fmal, f3⟩ := hf
    rcases f3 with ⟨p1, p2, p3, p4, p5, p6⟩ | ⟨p1, p2, p3, p4⟩ <;>
      simp_all <;> omega

theorem parseLine_from (env : ParserEnv) (line : String) (st : ParseState)
    (hfrom : goHasPrefix line "From " = true) :
    parseLine env st line
      = startNewMessage (flushState (applyPendingHeader env (bumpTotal st))) := by
  simp [parseLine, hfrom]

/-- A line that is not a message delimiter never changes the totals, the
skip accounting, the output list, or whether a message is in progress. -/
theorem parseLine_nonFrom_frame (env : ParserEnv) (line : String)
    (st : ParseState) (hfrom : goHasPrefix line "From " = false) :
    (parseLine env st line).stats.total = st.stats.total ∧
    (parseLine env st line).stats.parsed = st.stats.parsed ∧
    (parseLine env st line).stats.skipped = st.stats.skipped ∧
    (parseLine env st line).stats.invalidMessageID
      = st.stats.invalidMessageID ∧
    (parseLine env st line).stats.invalidFrom = st.stats.invalidFrom ∧
    (parseLine env st line).stats.invalidDate = st.stats.invalidDate ∧
    (parseLine env st line).messages = st.messages ∧
    (parseLine env st line).current.isSome = st.current.isSome := by
  obtain ⟨a1, a2, a3, a4, a5, a6, a7, a8⟩ := applyPendingHeader_frame env st
  simp only [parseLine, hfrom]
  rcases hc : st.current with _ | msg
  · simp [hc]
  · simp only [hc]
    split_ifs with hblank hlh hcont hnew <;>
      simp_all [hc]

theorem parseLine_inv (env : ParserEnv) (line : String) {st : ParseState}
    (h : statsInv st) : statsInv (parseLine env st line) := by
  obtain ⟨h1, h2, h3⟩ := h
  by_cases hfrom : goHasPrefix line "From " = true
  · -- a "From " line: bump total, apply pending header, flush, start fresh
    rw [parseLine_from env line st hfrom]
    obtain ⟨a1, a2, a3, a4, a5, a6, a7, a8⟩ :=
      applyPendingHeader_frame env (bumpTotal st)
    have a1' : (applyPendingHeader env (bumpTotal st)).stats.total
        = st.stats.total + 1 := a1
    have a2' : (applyPendingHeader env (bumpTotal st)).stats.parsed
        = st.stats.parsed := a2
    have a3' : (applyPendingHeader env (bumpTotal st)).stats.skipped
        = st.stats.skipped := a3
    have a4' : (applyPendingHeader env (bumpTotal st)).stats.invalidMessageID
        = st.stats.invalidMessageID := a4
    have a5' : (applyPendingHeader env (bumpTotal st)).stats.invalidFrom
        = st.stats.invalidFrom := a5
    have a6' : (applyPendingHeader env (bumpTotal st)).stats.invalidDate
        = st.stats.invalidDate := a6
    have a7' : (applyPendingHeader env (bumpTotal st)).messages
        = st.messages := a7
    have a8' : (applyPendingHeader env (bumpTotal st)).current.isSome
        = st.current.isSome := a8
    have hF := @flushState_acc (applyPendingHeader env (bumpTotal st))
      (by rw [a3', a4', a5', a6']; exact h2) (by rw [a2', a7']; exact h3)
    obtain ⟨f1, f2, f3, f4⟩ := hF
    rw [a8', a2', a3'] at f2
    refine ⟨?_, f3, f4⟩
    show (flushState (applyPendingHeader env (bumpTotal st))).stats.total
      = (flushState (applyPendingHeader env (bumpTotal st))).stats.parsed
        + (flushState (applyPendingHeader env (bumpTotal st))).stats.skipped
        + 1
    rw [f1, a1']
    omega
  · obtain ⟨p1, p2, p3, p4, p5, p6, p7, p8⟩ :=
      parseLine_nonFrom_frame env line st (by simpa using hfrom)
    refine ⟨?_, ?_, ?_⟩
    · rw [p1, p2, p3, p8]
      exact h1
    · rw [p3, p4, p5, p6]
      exact h2
    · rw [p2, p7]
      exact h3

theorem parseFinish_inv {st : ParseState} (h : statsInv st) :
    (parseFinish st).stats.total
      = (parseFinish st).stats.parsed + (parseFinish st).stats.skipped ∧
    (parseFinish st).stats.skipped
      = (parseFinish st).stats.invalidMessageID
        + (parseFinish st).stats.invalidFrom
        + (parseFinish st).stats.invalidDate ∧
    (parseFinish st).stats.parsed = (parseFinish st).messages.length := by
  obtain ⟨h1, h2, h3⟩ := h
  obtain ⟨f1, f2, f3, f4⟩ := flushState_acc h2 h3
  exact ⟨by rw [show parseFinish st = flushState st from rfl, f1, h1]; omega,
    f3, f4⟩

/-- C10: for every input, the returned statistics satisfy
`Total = Parsed + Skipped` and
`Skipped = InvalidMessageID + InvalidFrom + InvalidDate`, and `Parsed`
counts exactly the retained messages.  (The claim's further clause that
`MalformedMessageID` counts repaired-and-*retained* messages is refuted by
`parseStats_malformed_not_retained`: a repaired message can still be
skipped by a later validation rule while remaining counted as
malformed.) -/
theorem parseMboxLines_accounting (env : ParserEnv) (lines : List String) :
    (parseMboxLines env lines).2.total
      = (parseMboxLines env lines).2.parsed
        + (parseMboxLines env lines).2.skipped ∧
    (parseMboxLines env lines).2.skipped
      = (parseMboxLines env lines).2.invalidMessageID
        + (parseMboxLines env lines).2.invalidFrom
        + (parseMboxLines env lines).2.invalidDate ∧
    (parseMboxLines env lines).2.parsed
      = (parseMboxLines env lines).1.length := by
  have hgen : ∀ (ls : List String) (st : ParseState), statsInv st →
      statsInv (ls.foldl (parseLine env) st) := by
    intro ls
    induction ls with
    | nil => intro st h; exact h
    | cons l t ih => intro st h; exact ih _ (parseLine_inv env l h)
  exact parseFinish_inv (hgen lines {} ⟨rfl, rfl, rfl⟩)

/-- An environment for concrete parser runs: no date layout ever matches,
and the wall clock reads 1700000000 (2023-11-14T22:13:20Z). -/
def probeEnv : ParserEnv :=
  ⟨fun _ _ => none, 1700000000⟩

/-- C10 counterexample: a message whose `Message-ID` header is malformed
(`abc def`) is repaired and counted under `MalformedMessageID`, yet it is
*not* retained — it lacks any sender identity and is skipped as
`InvalidFrom` — so `MalformedMessageID` does not count only
repaired-and-retained messages. -/
theorem parseStats_malformed_not_retained :
    (parseMboxLines probeEnv
      ["From guard", "Message-id: abc def", "", "body"]).2.malformedMessageID
        = 1 ∧
    (parseMboxLines probeEnv
      ["From guard", "Message-id: abc def", "", "body"]).2.skipped = 1 ∧
    (parseMboxLines probeEnv
      ["From guard", "Message-id: abc def", "", "body"]).1 = [] := by
  exact ⟨rfl, rfl, rfl⟩

/-! ### Date validation (C4) -/

/-- C4 counterexample: a message whose `Date` header is *present but
matches none of the layouts* is not treated as a validation failure — no
skip is recorded, `InvalidDate` stays 0, and the message is retained with
its timestamp silently replaced by the current time (`probeEnv.now`). -/
theorem parseMbox_unparseable_date_retained :
    (parseMboxLines probeEnv
      ["From guard", "Message-ID: <m1@x>", "From: Alice <a@x>",
        "Date: not a real date", "", "hi"]).2.invalidDate = 0 ∧
    (parseMboxLines probeEnv
      ["From guard", "Message-ID: <m1@x>", "From: Alice <a@x>",
        "Date: not a real date", "", "hi"]).2.skipped = 0 ∧
    (parseMboxLines probeEnv
      ["From guard", "Message-ID: <m1@x>", "From: Alice <a@x>",
        "Date: not a real date", "", "hi"]).1.map Message.createdAt
      = [some probeEnv.now] := by
  exact ⟨rfl, rfl, rfl⟩

/-- C4 (amended): when every layout fails on a *present* `Date` value,
`parseDate` falls back to the current time (so the message is kept with a
synthetic timestamp, contrary to the claim); only a message that reaches
the flush with *no* date at all (the zero `time.Time`) is skipped and
counted under `InvalidDate` without being appended. -/
theorem parseDate_fallback_and_absent_date_skips
    (env : ParserEnv) (dateStr : String)
    (hfail : ∀ fmt ∈ dateFormats, env.parseFormat fmt dateStr = none)
    (msg : Message) (body cte contentType : String)
    (stats : ParseStats) (messages : List Message)
    (hid : msg.messageId ≠ "") (hfrom : msg.authorEmail ≠ "")
    (hdate : msg.createdAt = none) :
    parseDate env dateStr = env.now ∧
    flushMessage msg body cte contentType stats messages
      = ({ stats with
           skipped := stats.skipped + 1,
           invalidDate := stats.invalidDate + 1 }, messages) := by
  constructor
  · have h1 := hfail "Mon, 02 Jan 2006 15:04:05 -0700" (by simp [dateFormats])
    have h2 := hfail "Mon, 02 Jan 2006 15:04:05 MST" (by simp [dateFormats])
    have h4 := hfail "Mon, 2 Jan 2006 15:04:05 -0700" (by simp [dateFormats])
    have h5 := hfail "02 Jan 2006 15:04:05 -0700" (by simp [dateFormats])
    have h6 := hfail "2 Jan 2006 15:04:05 -0700" (by simp [dateFormats])
    simp [parseDate, dateFormats, List.findSome?, h1, h2, h4, h5, h6]
  · simp [flushMessage, hid, hfrom, hdate]

theorem parseDate_fallback_and_absent_date_skips_witness :
    ((∀ fmt ∈ dateFormats, probeEnv.parseFormat fmt "garbage" = none) ∧
      ("m@x" : String) ≠ "" ∧ ("a@x" : String) ≠ "") ∧
    (parseDate probeEnv "garbage" = probeEnv.now ∧
      flushMessage { messageId := "m@x", author := "A", authorEmail := "a@x" }
        "" "" "" {} []
        = ({ skipped := 1, invalidDate := 1 }, [])) :=
  ⟨⟨fun _ _ => rfl, by decide, by decide⟩,
    parseDate_fallback_and_absent_date_skips probeEnv "garbage"
      (fun _ _ => rfl)
      { messageId := "m@x", author := "A", authorEmail := "a@x" }
      "" "" "" {} [] (by decide) (by decide) rfl⟩

/-! ### Malformed Message-ID repair (C5) -/

/-- C5 counterexample: a `Message-ID` value with an embedded space but a
surviving `@` (`"a b@c.d"`) is *not* assigned a freshly generated fallback
id and is *not* counted under the malformed statistic — the cleaner merely
strips the space and keeps the result, so the message is retained under
the space-stripped id `"ab@c.d"`. -/
theorem parseMbox_spaced_id_not_fallback :
    cleanMessageID "a b@c.d" = some "ab@c.d" ∧
    (parseMboxLines probeEnv
      ["From guard", "Message-ID: a b@c.d", "From: Alice <a@x>",
        "Date: x", "", "hi"]).2.malformedMessageID = 0 ∧
    (parseMboxLines probeEnv
      ["From guard", "Message-ID: a b@c.d", "From: Alice <a@x>",
        "Date: x", "", "hi"]).1.map Message.messageId = ["ab@c.d"] := by
  exact ⟨rfl, rfl, rfl⟩

/-- C5 (amended): only when `cleanMessageID` *fails* — the value is empty
after cleanup or has no `@` even after space stripping — does
`processHeader` repair the id: it assigns the freshly generated,
counter-indexed fallback id (which is never empty), increments only the
malformed-message-id statistic (skips untouched), and advances the
fresh-name counter.  A value with embedded spaces but an `@` is instead
space-stripped (see `parseMbox_spaced_id_not_fallback`). -/
theorem processHeader_malformed_id_repair (env : ParserEnv) (v : String)
    (t : HeaderTarget) (hv : cleanMessageID v = none) :
    processHeader env "message-id" v t
      = { t with
          msg := { t.msg with
            messageId := generateFallbackMessageID t.uuidCounter },
          stats := { t.stats with
            malformedMessageID := t.stats.malformedMessageID + 1 },
          uuidCounter := t.uuidCounter + 1 } ∧
    generateFallbackMessageID t.uuidCounter ≠ "" := by
  constructor
  · simp [processHeader, hv]
  · intro h
    have hl := congrArg String.length h
    simp [generateFallbackMessageID, String.length_append] at hl
    exact absurd hl.1.1 (by decide)

theorem processHeader_malformed_id_repair_witness :
    cleanMessageID "abc def" = none ∧
    (processHeader probeEnv "message-id" "abc def" {}
      = { msg := { messageId := generateFallbackMessageID 0 },
          stats := { malformedMessageID := 1 },
          uuidCounter := 1 } ∧
      generateFallbackMessageID 0 ≠ "") :=
  ⟨by decide,
    processHeader_malformed_id_repair probeEnv "abc def" {} (by decide)⟩

/-! ### Threading (routes.go): `parseReferences`, `findThreadRootRFC5256`,
`groupByThread` (C3) -/

/-- `strings.Fields`: split on runs of Unicode whitespace. -/
def goFieldsAux : List Char → List Char → List String
  | [], cur => if cur.isEmpty then [] else [String.mk cur]
  | c :: rest, cur =>
    if isGoSpace c then
      if cur.isEmpty then goFieldsAux rest []
      else String.mk cur :: goFieldsAux rest []
    else goFieldsAux rest (cur ++ [c])

def goFields (s : String) : List String :=
  goFieldsAux s.data []

/-- The angle-bracket scan of `parseReferences` (routes.go lines 409-425):
`inB` is `inBracket`, `cur` the builder's content, `acc` the ids collected
so far.  An unclosed bracket's content is discarded at end of input, and
the builder is not reset on `>` (both as in the source). -/
def parseRefsScan : List Char → Bool → List Char → List String → List String
  | [], _, _, acc => acc
  | c :: rest, inB, cur, acc =>
    if c == '<' then parseRefsScan rest true [] acc
    else if c == '>' && inB then
      parseRefsScan rest false cur
        (if cur.isEmpty then acc else acc ++ [String.mk cur])
    else if inB then parseRefsScan rest inB (cur ++ [c]) acc
    else parseRefsScan rest inB cur acc

/-- `parseReferences` (routes.go lines 399-439): angle-bracket ids; when
none are found, whitespace fields trimmed of `<>` that contain `@`. -/
def parseReferences (references : String) : List String :=
  if references = "" then []
  else
    let refs := parseRefsScan references.data false [] []
    if refs.isEmpty then
      (goFields references).filterMap (fun part =>
        let part := goTrim part ['<', '>']
        if part ≠ "" && strContains part "@" then some part else none)
    else refs

/-- The reference chain `findThreadRootRFC5256` builds (routes.go lines
344-350): the `References` ids, then `In-Reply-To` when nonempty. -/
def refsOf (msg : Message) : List String :=
  let refs := parseReferences msg.refersTo
  if msg.inReplyTo ≠ "" then refs ++ [msg.inReplyTo] else refs

/-- Per-reference cleanup in the candidate-root loop (routes.go line 365):
`strings.Trim(strings.TrimSpace(refID), "<>")`. -/
def cleanRef (r : String) : String :=
  goTrim (goTrimSpace r) ['<', '>']

/-- The candidate root: the first reference that is nonempty after
cleanup (routes.go lines 362-371, `break` at the first valid one). -/
def firstValidRef (msg : Message) : Option String :=
  ((refsOf msg).map cleanRef).find? (fun r => !(r == ""))

/-- `messageMap` lookup.  The map is filled in batch order with
overwriting assignment, so a duplicated id resolves to the last message
bearing it. -/
def lookupMsg (msgs : List Message) (id : String) : Option Message :=
  msgs.reverse.find? (fun m => m.messageId == id)

/-- `messageToRoot` lookup.  Writes cons to the front, so the front-most
entry is the most recent write, as for an overwriting Go map. -/
def memoFind (memo : List (String × String)) (k : String) : Option String :=
  (memo.find? (fun p => p.1 == k)).map Prod.snd

/-- `findThreadRootRFC5256` (routes.go lines 342-396), with the memo
threaded explicitly and a fuel bound on the recursion (the source
recurses unboundedly and would not return on a reference cycle; every
call here receives fuel at least the batch length, which the claims'
acyclic instances never exhaust).  Returns the root and the updated
memo. -/
def findThreadRootRFC5256 (fuel : Nat) (messageMap : List Message)
    (msg : Message) (memo : List (String × String)) :
    String × List (String × String) :=
  match firstValidRef msg with
  | none => (msg.messageId, memo)
  | some refId =>
    match memoFind memo refId with
    | some root => (root, memo)
    | none =>
      match lookupMsg messageMap refId with
      | some refMsg =>
        match fuel with
        | 0 => (refId, memo)
        | fuel' + 1 =>
          let r := findThreadRootRFC5256 fuel' messageMap refMsg memo
          (r.1, (refId, r.1) :: r.2)
      | none => (refId, memo)

/-- The first loop of `groupByThread` (routes.go lines 326-329): resolve
every message's root in batch order, recording it in `messageToRoot`. -/
def buildMemo (msgs : List Message) : List (String × String) :=
  msgs.foldl (fun memo msg =>
    let r := findThreadRootRFC5256 msgs.length msgs msg memo
    (msg.messageId, r.1) :: r.2) []

/-- A message's key in the grouping loop: `messageToRoot[msg.MessageID]`
(a missing key reads Go's zero string). -/
def rootKeyOf (memo : List (String × String)) (m : Message) : String :=
  (memoFind memo m.messageId).getD ""

/-- `groupByThread` (routes.go lines 314-339).  The returned Go map from
root id to appended members is modelled as an association list over the
distinct root keys, each group holding its members in batch order. -/
def groupByThread (msgs : List Message) : List (String × List Message) :=
  let memo := buildMemo msgs
  let keys := (msgs.map (rootKeyOf memo)).dedup
  keys.map (fun k => (k, msgs.filter (fun m => rootKeyOf memo m == k)))

/-- The key discipline the C3 analysis rests on: every memo entry keyed by
`aid` maps to `aid`, and every entry keyed by `bid` maps to `aid`. -/
def memoRespects (aid bid : String) (memo : List (String × String)) : Prop :=
  ∀ p ∈ memo, (p.1 = aid → p.2 = aid) ∧ (p.1 = bid → p.2 = aid)

theorem memoFind_respects_fst {aid bid v : String}
    {memo : List (String × String)} (h : memoRespects aid bid memo)
    (hv : memoFind memo aid = some v) : v = aid := by
  unfold memoFind at hv
  cases hf : memo.find? (fun p => p.1 == aid) with
  | none => rw [hf] at hv; simp at hv
  | some p =>
    rw [hf] at hv
    simp at hv
    have hmem := List.mem_of_find?_eq_some hf
    have hpred : p.1 = aid := by simpa using List.find?_some hf
    rw [← hv]
    exact (h p hmem).1 hpred

theorem memoFind_respects_snd {aid bid v : String}
    {memo : List (String × String)} (h : memoRespects aid bid memo)
    (hv : memoFind memo bid = some v) : v = aid := by
  unfold memoFind at hv
  cases hf : memo.find? (fun p => p.1 == bid) with
  | none => rw [hf] at hv; simp at hv
  | some p =>
    rw [hf] at hv
    simp at hv
    have hmem := List.mem_of_find?_eq_some hf
    have hpred : p.1 = bid := by simpa using List.find?_some hf
    rw [← hv]
    exact (h p hmem).2 hpred

/-- `findThreadRootRFC5256` only adds memo entries (it conses, never
removes). -/
theorem findThreadRoot_extends (map : List Message) :
    ∀ (fuel : Nat) (msg : Message) (memo : List (String × String)),
      ∃ ext, (findThreadRootRFC5256 fuel map msg memo).2 = ext ++ memo := by
  intro fuel
  induction fuel with
  | zero =>
    intro msg memo
    unfold findThreadRootRFC5256
    split
    · exact ⟨[], rfl⟩
    · split
      · exact ⟨[], rfl⟩
      · split
        · exact ⟨[], rfl⟩
        · exact ⟨[], rfl⟩
  | succ fuel' ih =>
    intro msg memo
    unfold findThreadRootRFC5256
    split
    · exact ⟨[], rfl⟩
    · split
      · exact ⟨[], rfl⟩
      · split
        · rename_i refMsg heq3
          obtain ⟨ext, hext⟩ := ih refMsg memo
          dsimp only
          rw [hext]
          exact ⟨_ :: ext, rfl⟩
        · exact ⟨[], rfl⟩

theorem memoFind_isSome_append {k : String}
    {memo : List (String × String)} (ext : List (String × String))
    (h : (memoFind memo k).isSome) :
    (memoFind (ext ++ memo) k).isSome := by
  induction ext with
  | nil => simpa using h
  | cons e t ih =>
    unfold memoFind
    cases he : (e.1 == k) with
    | true => simp [List.find?, he]
    | false =>
      simp only [List.cons_append, List.find?, he]
      exact ih

theorem findThreadRoot_zero_snd (map : List Message) (msg : Message)
    (memo : List (String × String)) :
    (findThreadRootRFC5256 0 map msg memo).2 = memo := by
  unfold findThreadRootRFC5256
  split
  · rfl
  · split
    · rfl
    · split
      · rfl
      · rfl

/-- A message with no usable reference is its own root, at any fuel, and
writes nothing. -/
theorem find_root_of_refless {msg : Message} (h : firstValidRef msg = none)
    (fuel : Nat) (map : List Message) (memo : List (String × String)) :
    findThreadRootRFC5256 fuel map msg memo = (msg.messageId, memo) := by
  cases fuel <;>
    · unfold findThreadRootRFC5256
      split
      · rfl
      · rename_i refId heq
        rw [h] at heq
        exact Option.noConfusion heq

theorem lookupMsg_self {msgs : List Message} {A : Message}
    (hnd : (msgs.map Message.messageId).Nodup) (hA : A ∈ msgs) :
    lookupMsg msgs A.messageId = some A := by
  unfold lookupMsg
  cases hf : msgs.reverse.find? (fun m => m.messageId == A.messageId) with
  | none =>
    exfalso
    rw [List.find?_eq_none] at hf
    exact absurd (by simp : (A.messageId == A.messageId) = true)
      (by simpa using hf A (List.mem_reverse.mpr hA))
  | some m =>
    have hmem := List.mem_reverse.mp (List.mem_of_find?_eq_some hf)
    have hpred : m.messageId = A.messageId := by
      simpa using List.find?_some hf
    exact congrArg some (List.inj_on_of_nodup_map hnd hmem hA hpred)

/-- The heart of the C3 analysis: assuming `A` has no usable reference and
`B`'s first usable reference is `A`'s id, every `findThreadRootRFC5256`
call preserves the key discipline, and resolving `B` yields `A`'s id. -/
theorem findThreadRoot_respects {msgs : List Message} {A B : Message}
    (hAr : firstValidRef A = none)
    (hBf : firstValidRef B = some A.messageId)
    (hlA : lookupMsg msgs A.messageId = some A)
    (hlB : lookupMsg msgs B.messageId = some B) :
    ∀ (fuel : Nat) (memo : List (String × String)),
      memoRespects A.messageId B.messageId memo →
      (∀ msg, memoRespects A.messageId B.messageId
        (findThreadRootRFC5256 fuel msgs msg memo).2) ∧
      (findThreadRootRFC5256 fuel msgs B memo).1 = A.messageId := by
  intro fuel
  induction fuel with
  | zero =>
    intro memo hP
    refine ⟨fun msg => by rw [findThreadRoot_zero_snd]; exact hP, ?_⟩
    unfold findThreadRootRFC5256
    split
    · rename_i heq
      rw [hBf] at heq
      exact Option.noConfusion heq
    · rename_i refId heqfv
      have hrid : refId = A.messageId := by
        rw [hBf] at heqfv
        exact (Option.some.inj heqfv).symm
      split
      · rename_i root heqm
        exact memoFind_respects_fst hP (hrid ▸ heqm)
      · rename_i heqm
        split
        · exact hrid
        · exact hrid
  | succ fuel' ih =>
    intro memo hP
    have hpres : ∀ msg, memoRespects A.messageId B.messageId
        (findThreadRootRFC5256 (fuel' + 1) msgs msg memo).2 := by
      intro msg
      unfold findThreadRootRFC5256
      split
      · exact hP
      · rename_i refId heqfv
        split
        · exact hP
        · rename_i heqm
          split
          · rename_i refMsg heqlook
            dsimp only
            intro p hp
            rcases List.mem_cons.mp hp with rfl | hp'
            · constructor
              · intro hkey
                have hkey' : refId = A.messageId := hkey
                have hA' : refMsg = A := by
                  rw [hkey', hlA] at heqlook
                  exact (Option.some.inj heqlook).symm
                show (findThreadRootRFC5256 fuel' msgs refMsg memo).1
                  = A.messageId
                rw [hA', find_root_of_refless hAr]
              · intro hkey
                have hkey' : refId = B.messageId := hkey
                have hB' : refMsg = B := by
                  rw [hkey', hlB] at heqlook
                  exact (Option.some.inj heqlook).symm
                show (findThreadRootRFC5256 fuel' msgs refMsg memo).1
                  = A.messageId
                rw [hB']
                exact (ih memo hP).2
            · exact (ih memo hP).1 refMsg p hp'
          · exact hP
    refine ⟨hpres, ?_⟩
    unfold findThreadRootRFC5256
    split
    · rename_i heq
      rw [hBf] at heq
      exact Option.noConfusion heq
    · rename_i refId heqfv
      have hrid : refId = A.messageId := by
        rw [hBf] at heqfv
        exact (Option.some.inj heqfv).symm
      split
      · rename_i root heqm
        exact memoFind_respects_fst hP (hrid ▸ heqm)
      · rename_i heqm
        split
        · rename_i refMsg heqlook
          dsimp only
          have hA' : refMsg = A := by
            rw [hrid, hlA] at heqlook
            exact (Option.some.inj heqlook).symm
          rw [hA', find_root_of_refless hAr]
        · exact hrid

/-- After the root-resolution pass, `A` is keyed to itself and `B` is
keyed to `A`'s id. -/
theorem buildMemo_rootKeys {msgs : List Message} {A B : Message}
    (hnd : (msgs.map Message.messageId).Nodup)
    (hA : A ∈ msgs) (hB : B ∈ msgs)
    (hAr : firstValidRef A = none)
    (hBf : firstValidRef B = some A.messageId) :
    rootKeyOf (buildMemo msgs) A = A.messageId ∧
    rootKeyOf (buildMemo msgs) B = A.messageId := by
  have hlA := lookupMsg_self hnd hA
  have hlB := lookupMsg_self hnd hB
  have core := findThreadRoot_respects hAr hBf hlA hlB
  have hstep : ∀ (memo : List (String × String)) (m : Message),
      memoRespects A.messageId B.messageId memo → m ∈ msgs →
      memoRespects A.messageId B.messageId
        ((m.messageId,
          (findThreadRootRFC5256 msgs.length msgs m memo).1) ::
          (findThreadRootRFC5256 msgs.length msgs m memo).2) := by
    intro memo m hP hm
    intro p hp
    rcases List.mem_cons.mp hp with rfl | hp'
    · constructor
      · intro hkey
        have hkey' : m.messageId = A.messageId := hkey
        have hmA : m = A := List.inj_on_of_nodup_map hnd hm hA hkey'
        show (findThreadRootRFC5256 msgs.length msgs m memo).1
          = A.messageId
        rw [hmA, find_root_of_refless hAr]
      · intro hkey
        have hkey' : m.messageId = B.messageId := hkey
        have hmB : m = B := List.inj_on_of_nodup_map hnd hm hB hkey'
        show (findThreadRootRFC5256 msgs.length msgs m memo).1
          = A.messageId
        rw [hmB]
        exact (core msgs.length memo hP).2
    · exact (core msgs.length memo hP).1 m p hp'
  have hmain : ∀ (l : List Message), (∀ m ∈ l, m ∈ msgs) →
      ∀ memo, memoRespects A.messageId B.messageId memo →
      memoRespects A.messageId B.messageId
        (l.foldl (fun memo msg =>
          (msg.messageId,
            (findThreadRootRFC5256 msgs.length msgs msg memo).1) ::
            (findThreadRootRFC5256 msgs.length msgs msg memo).2) memo) ∧
      (((memoFind memo A.messageId).isSome ∨ A ∈ l) →
        (memoFind (l.foldl (fun memo msg =>
          (msg.messageId,
            (findThreadRootRFC5256 msgs.length msgs msg memo).1) ::
            (findThreadRootRFC5256 msgs.length msgs msg memo).2) memo)
          A.messageId).isSome) ∧
      (((memoFind memo B.messageId).isSome ∨ B ∈ l) →
        (memoFind (l.foldl (fun memo msg =>
          (msg.messageId,
            (findThreadRootRFC5256 msgs.length msgs msg memo).1) ::
            (findThreadRootRFC5256 msgs.length msgs msg memo).2) memo)
          B.messageId).isSome) := by
    intro l
    induction l with
    | nil =>
      intro _ memo hP
      refine ⟨hP, ?_, ?_⟩
      · rintro (h | h)
        · exact h
        · exact absurd h (List.not_mem_nil _)
      · rintro (h | h)
        · exact h
        · exact absurd h (List.not_mem_nil _)
    | cons m t iht =>
      intro hl memo hP
      rw [List.foldl_cons]
      have hm : m ∈ msgs := hl m (List.mem_cons_self m t)
      have hP' := hstep memo m hP hm
      have hext : ∃ ext,
          ((m.messageId,
            (findThreadRootRFC5256 msgs.length msgs m memo).1) ::
            (findThreadRootRFC5256 msgs.length msgs m memo).2)
          = ext ++ memo := by
        obtain ⟨ext, hext⟩ := findThreadRoot_extends msgs msgs.length m memo
        exact ⟨(m.messageId,
          (findThreadRootRFC5256 msgs.length msgs m memo).1) :: ext,
          by rw [List.cons_append, hext]⟩
      obtain ⟨ext, hexteq⟩ := hext
      have ihm := iht (fun x hx => hl x (List.mem_cons_of_mem m hx)) _ hP'
      refine ⟨ihm.1, ?_, ?_⟩
      · rintro (h | h)
        · have hkeep : (memoFind (ext ++ memo) A.messageId).isSome :=
            memoFind_isSome_append ext h
          rw [← hexteq] at hkeep
          exact ihm.2.1 (Or.inl hkeep)
        · rcases List.mem_cons.mp h with rfl | hAt
          · refine ihm.2.1 (Or.inl ?_)
            unfold memoFind
            simp [List.find?]
          · exact ihm.2.1 (Or.inr hAt)
      · rintro (h | h)
        · have hkeep : (memoFind (ext ++ memo) B.messageId).isSome :=
            memoFind_isSome_append ext h
          rw [← hexteq] at hkeep
          exact ihm.2.2 (Or.inl hkeep)
        · rcases List.mem_cons.mp h with rfl | hBt
          · refine ihm.2.2 (Or.inl ?_)
            unfold memoFind
            simp [List.find?]
          · exact ihm.2.2 (Or.inr hBt)
  have hres := hmain msgs (fun _ hm => hm) [] (fun p hp => absurd hp
    (List.not_mem_nil p))
  have hPfin : memoRespects A.messageId B.messageId (buildMemo msgs) :=
    hres.1
  have hsA : (memoFind (buildMemo msgs) A.messageId).isSome :=
    hres.2.1 (Or.inr hA)
  have hsB : (memoFind (buildMemo msgs) B.messageId).isSome :=
    hres.2.2 (Or.inr hB)
  obtain ⟨vA, hvA⟩ := Option.isSome_iff_exists.mp hsA
  obtain ⟨vB, hvB⟩ := Option.isSome_iff_exists.mp hsB
  constructor
  · unfold rootKeyOf
    rw [hvA, memoFind_respects_fst hPfin hvA]
    rfl
  · unfold rootKeyOf
    rw [hvB, memoFind_respects_snd hPfin hvB]
    rfl

/-- Grouping the batch by any key function puts every message in exactly
one group. -/
theorem groups_countP (msgs : List Message) (key : Message → String)
    (m : Message) (hm : m ∈ msgs) :
    (((msgs.map key).dedup).map
      (fun k => (k, msgs.filter (fun m' => key m' == k)))).countP
        (fun p => decide (m ∈ p.2)) = 1 := by
  rw [List.countP_map]
  have hpq : ∀ k ∈ (msgs.map key).dedup,
      (((fun p => decide (m ∈ p.2)) ∘
        (fun k => (k, msgs.filter (fun m' => key m' == k)))) k = true
        ↔ (fun k => k == key m) k = true) := by
    intro k _
    by_cases h : key m = k
    · subst h
      simp [List.mem_filter, hm]
    · simp [List.mem_filter, h, Ne.symm h]
  rw [List.countP_congr hpq]
  exact List.count_eq_one_of_mem (List.nodup_dedup _)
    (List.mem_dedup.mpr (List.mem_map_of_mem key hm))

def msgA : Message :=
  { messageId := "a@x" }

def msgBmissing : Message :=
  { messageId := "b@x", refersTo := "<c@x> <a@x>" }

def msgBshared : Message :=
  { messageId := "b@x", refersTo := "<a@x> <c@x>" }

/-- C3 counterexample: `msgBmissing`'s References list contains `msgA`'s
id, but its *first* reference names a message absent from the batch, so
`groupByThread` roots it there and puts `msgA` and `msgBmissing` in
different groups — two messages sharing the common ancestor `a@x` are not
grouped together. -/
theorem groupByThread_shared_ref_split :
    msgA.messageId ∈ parseReferences msgBmissing.refersTo ∧
    ¬ ∃ p ∈ groupByThread [msgA, msgBmissing],
      msgA ∈ p.2 ∧ msgBmissing ∈ p.2 := by
  decide

/-- C3 (amended): `groupByThread` partitions the batch — every message
lies in exactly one group — and two messages are merged through the
*first* usable reference only: when `A` has no usable reference, `B`'s
first usable reference (References in order, then In-Reply-To) cleans to
`A`'s id, and message ids are unique in the batch, then `A` and `B` land
in the same group.  A shared ancestor deeper in the chain does not merge
(see `groupByThread_shared_ref_split`). -/
theorem groupByThread_partition_first_ref (msgs : List Message)
    (A B : Message) (hnd : (msgs.map Message.messageId).Nodup)
    (hA : A ∈ msgs) (hB : B ∈ msgs) (hAr : firstValidRef A = none)
    (hBf : firstValidRef B = some A.messageId) :
    (∀ m ∈ msgs,
      (groupByThread msgs).countP (fun p => decide (m ∈ p.2)) = 1) ∧
    ∃ p ∈ groupByThread msgs, A ∈ p.2 ∧ B ∈ p.2 := by
  obtain ⟨hkA, hkB⟩ := buildMemo_rootKeys hnd hA hB hAr hBf
  have hgb : groupByThread msgs
      = ((msgs.map (rootKeyOf (buildMemo msgs))).dedup).map
          (fun k => (k, msgs.filter
            (fun m => rootKeyOf (buildMemo msgs) m == k))) := rfl
  constructor
  · intro m hm
    rw [hgb]
    exact groups_countP msgs (rootKeyOf (buildMemo msgs)) m hm
  · refine ⟨(A.messageId, msgs.filter
      (fun m => rootKeyOf (buildMemo msgs) m == A.messageId)), ?_, ?_, ?_⟩
    · rw [hgb]
      refine List.mem_map.mpr ⟨A.messageId, ?_, rfl⟩
      exact List.mem_dedup.mpr
        (hkA ▸ List.mem_map_of_mem (rootKeyOf (buildMemo msgs)) hA)
    · exact List.mem_filter.mpr ⟨hA, by simp [hkA]⟩
    · exact List.mem_filter.mpr ⟨hB, by simp [hkB]⟩

theorem groupByThread_partition_first_ref_witness :
    (([msgA, msgBshared].map Message.messageId).Nodup ∧
      msgA ∈ [msgA, msgBshared] ∧ msgBshared ∈ [msgA, msgBshared] ∧
      firstValidRef msgA = none ∧
      firstValidRef msgBshared = some msgA.messageId) ∧
    ((∀ m ∈ [msgA, msgBshared],
        (groupByThread [msgA, msgBshared]).countP
          (fun p => decide (m ∈ p.2)) = 1) ∧
      ∃ p ∈ groupByThread [msgA, msgBshared],
        msgA ∈ p.2 ∧ msgBshared ∈ p.2) :=
  ⟨⟨by decide, by decide, by decide, by decide, by decide⟩,
    groupByThread_partition_first_ref [msgA, msgBshared] msgA msgBshared
      (by decide) (by decide) (by decide) (by decide) (by decide)⟩

/-! ### Storage and reconciliation (routes.go `storeMessagesInDB`,
analyzer.go) for C2, C6, C7, C8 -/

/-- A `time.Time` modelled as unix seconds: the zero `time.Time`
(`0001-01-01T00:00:00Z`) is -62135596800. -/
def goTimeUnix (t : Option Int) : Int :=
  t.getD (-62135596800)

/-- Inner loop of `sortMessagesByTime` (routes.go lines 444-448): swap
when `msgs[i].CreatedAt.After(msgs[j].CreatedAt)`. -/
def sortInner : Nat → Nat → Nat → Array Message → Array Message
  | 0, _, _, arr => arr
  | fuel + 1, i, j, arr =>
    if j < arr.size then
      let mi := arr.getD i {}
      let mj := arr.getD j {}
      let arr :=
        if goTimeUnix mi.createdAt > goTimeUnix mj.createdAt then
          (arr.setD i mj).setD j mi
        else arr
      sortInner fuel i (j + 1) arr
    else arr

/-- Outer loop of `sortMessagesByTime` (routes.go lines 443-450). -/
def sortOuter : Nat → Nat → Array Message → Array Message
  | 0, _, arr => arr
  | fuel + 1, i, arr =>
    if i + 1 < arr.size then
      sortOuter fuel (i + 1) (sortInner arr.size i (i + 1) arr)
    else arr

/-- `sortMessagesByTime` (routes.go lines 442-451), on a list. -/
def sortMessagesByTime (msgs : List Message) : List Message :=
  (sortOuter msgs.length 0 msgs.toArray).toList

/-- A row of the `threads` table (db.go schema; timestamps as unix
seconds, `last_message_at` nullable). -/
structure ThreadRow where
  id : String
  subject : String := ""
  firstMessageId : String := ""
  firstAuthor : String := ""
  firstAuthorEmail : String := ""
  createdAt : Int := 0
  lastMessageAt : Option Int := none
  messageCount : Int := 0
  uniqueAuthors : Int := 0
  status : String := "discussion"
deriving Repr, DecidableEq, Inhabited

/-- The persistent store: the `threads` and `messages` tables, rows in
insertion order (a `LIMIT 1` query resolves to the first match in row
order, deterministically standing in for the unspecified physical
order). -/
structure DB where
  threads : List ThreadRow := []
  messages : List Message := []
deriving Repr, DecidableEq, Inhabited

/-- `uuid.New().String()` as a fresh-name counter. -/
def uuidName (n : Nat) : String :=
  "uuid-" ++ toString n

/-- `sanitizeUTF8` (routes.go lines 664-682) returns its argument
unchanged whenever it is valid UTF-8; a Lean `String` always is. -/
def sanitizeUTF8 (s : String) : String :=
  s

/-- The rows `WHERE thread_id = tid`, in row order. -/
def threadMessages (db : DB) (tid : String) : List Message :=
  db.messages.filter (fun m => m.threadId == tid)

/-- `SELECT COUNT(*) FROM messages m WHERE m.thread_id = t.id`. -/
def threadMessageCount (db : DB) (tid : String) : Int :=
  (threadMessages db tid).length

/-- `SELECT COUNT(DISTINCT author_email) ...`. -/
def threadUniqueAuthors (db : DB) (tid : String) : Int :=
  (((threadMessages db tid).map Message.authorEmail).dedup).length

/-- `SELECT MAX(created_at) ...` (`none` models SQL NULL on an empty
set). -/
def threadLastMessage (db : DB) (tid : String) : Option Int :=
  ((threadMessages db tid).map (fun m => goTimeUnix m.createdAt)).max?

def patchKeywords : List String :=
  ["patch", "diff", "commit", "PR"]

def reviewKeywords : List String :=
  ["review", "LGTM", "approved", "looks good", "ACK"]

/-- `checkForPatchKeywords` (analyzer.go lines 60-96): scan every body of
the thread for the two keyword sets. -/
def checkForPatchKeywords (db : DB) (threadID : String) : Bool × Bool :=
  let bodies := (threadMessages db threadID).map Message.body
  (bodies.any (fun b =>
      patchKeywords.any (fun k => strContains (goToLower b) (goToLower k))),
   bodies.any (fun b =>
      reviewKeywords.any (fun k => strContains (goToLower b) (goToLower k))))

/-- `ClassifyThread` (analyzer.go lines 19-58) against the store:
`"unknown"` models the error return when the thread row is absent. -/
def classifyThreadDB (db : DB) (now : Int) (threadID : String) : String :=
  match db.threads.find? (fun t => t.id == threadID) with
  | none => "unknown"
  | some t =>
    let lastMessageAt := t.lastMessageAt.getD t.createdAt
    let pr := checkForPatchKeywords db threadID
    classifyStatus pr.1 pr.2 t.messageCount
      (Rat.divInt (now - lastMessageAt) 86400)

/-- `UPDATE threads SET status = $1 WHERE id = $2`. -/
def updateThreadStatus (db : DB) (tid status : String) : DB :=
  { db with threads := db.threads.map (fun t =>
      if t.id == tid then { t with status := status } else t) }

/-- `UpdateThreadActivity` (analyzer.go lines 99-155, the `threads`
update; the `thread_activities` upsert feeds no claim and is omitted).
When the thread has no messages, scanning `MAX(created_at)` (SQL NULL)
into a `time.Time` fails and the method returns before updating. -/
def UpdateThreadActivity (db : DB) (tid : String) : DB :=
  let ms := threadMessages db tid
  if ms.isEmpty then db
  else
    { db with threads := db.threads.map (fun t =>
        if t.id == tid then
          { t with
            messageCount := threadMessageCount db tid,
            uniqueAuthors := threadUniqueAuthors db tid,
            lastMessageAt := threadLastMessage db tid }
        else t) }

/-- The member-message fallback lookup (routes.go lines 713-723): the
first member whose row exists yields its `thread_id`. -/
def memberThreadLookup (db : DB) (ms : List Message) : Option String :=
  ms.findSome? (fun m =>
    (db.messages.find? (fun r => r.messageId == m.messageId)).map
      Message.threadId)

/-- Thread resolution for one group (routes.go lines 702-723): by the
root id's `first_message_id`, else by a member message's `thread_id`;
`""` when both fail (Go's zero string). -/
def resolveThreadId (db : DB) (root : String) (ms : List Message) :
    String :=
  match db.threads.find? (fun t => t.firstMessageId == root) with
  | some t => t.id
  | none => (memberThreadLookup db ms).getD ""

/-- `INSERT INTO threads ... ON CONFLICT (id) DO NOTHING`. -/
def insertThreadIfAbsent (db : DB) (t : ThreadRow) : DB :=
  if db.threads.any (fun t' => t'.id == t.id) then db
  else { db with threads := db.threads ++ [t] }

/-- `INSERT INTO messages ... ON CONFLICT (message_id) DO UPDATE SET
thread_id, in_reply_to, refers_to, has_patch, patch_status,
commitfest_id` (routes.go lines 758-762).  Either way PostgreSQL reports
`RowsAffected = 1`; the caller counts that, not this function. -/
def upsertMessage (db : DB) (row : Message) : DB :=
  if db.messages.any (fun r => r.messageId == row.messageId) then
    { db with messages := db.messages.map (fun r =>
        if r.messageId == row.messageId then
          { r with
            threadId := row.threadId,
            inReplyTo := row.inReplyTo,
            refersTo := row.refersTo,
            hasPatch := row.hasPatch,
            patchStatus := row.patchStatus,
            commitfestId := row.commitfestId }
        else r) }
  else { db with messages := db.messages ++ [row] }

/-- The accumulating state of one `storeMessagesInDB` call: the store,
the running `inserted` counter, and the fresh-name counter. -/
structure StoreState where
  db : DB
  inserted : Nat := 0
  uuidCounter : Nat := 0
deriving Repr, DecidableEq, Inhabited

/-- One member upsert plus counter bumps (`inserted += RowsAffected`,
and each member consumes a fresh uuid for `msg.ID`). -/
def upsertFold (tid : String) (acc : DB × Nat × Nat) (m : Message) :
    DB × Nat × Nat :=
  (upsertMessage acc.1 { m with id := uuidName acc.2.2, threadId := tid },
    acc.2.1 + 1, acc.2.2 + 1)

/-- Classify one thread and store the status; a classify error (absent
thread row) skips the update.  Used per group and by the closing
reclassification loop. -/
def reclassifyStep (now : Int) (db : DB) (tid : String) : DB :=
  match db.threads.find? (fun t => t.id == tid) with
  | none => db
  | some _ => updateThreadStatus db tid (classifyThreadDB db now tid)

/-- One iteration of the per-group loop of `storeMessagesInDB`
(routes.go lines 691-778): sort, resolve the thread, create it when
resolution fails, upsert every member, refresh the thread's activity,
and reclassify it. -/
def processGroup (now : Int) (st : StoreState)
    (g : String × List Message) : StoreState :=
  if g.2.isEmpty then st
  else
    let sorted := sortMessagesByTime g.2
    let firstMsg := sorted.headD {}
    let tid0 := resolveThreadId st.db g.1 sorted
    let r0 :=
      if tid0 = "" then
        (insertThreadIfAbsent st.db
          { id := uuidName st.uuidCounter,
            subject := sanitizeUTF8 firstMsg.subject,
            firstMessageId := sanitizeUTF8 g.1,
            firstAuthor := sanitizeUTF8 firstMsg.author,
            firstAuthorEmail := sanitizeUTF8 firstMsg.authorEmail,
            createdAt := goTimeUnix firstMsg.createdAt,
            lastMessageAt := some (goTimeUnix firstMsg.createdAt) },
          st.uuidCounter + 1, uuidName st.uuidCounter)
      else (st.db, st.uuidCounter, tid0)
    let tid := r0.2.2
    let r := sorted.foldl (upsertFold tid) (r0.1, st.inserted, r0.2.1)
    let db2 := UpdateThreadActivity r.1 tid
    let db3 := reclassifyStep now db2 tid
    { db := db3, inserted := r.2.1, uuidCounter := r.2.2 }

/-- The closing bulk refresh (routes.go lines 781-788): every thread's
aggregates recomputed from the persisted messages. -/
def refreshStats (db : DB) : DB :=
  { db with threads := db.threads.map (fun t =>
      { t with
        messageCount := threadMessageCount db t.id,
        uniqueAuthors := threadUniqueAuthors db t.id,
        lastMessageAt := threadLastMessage db t.id }) }

/-- `DELETE FROM threads WHERE message_count = 0` (routes.go line 791),
with the schema's `ON DELETE CASCADE` on `messages.thread_id`. -/
def deleteOrphans (db : DB) : DB :=
  let dead := (db.threads.filter (fun t => t.messageCount == 0)).map
    ThreadRow.id
  { threads := db.threads.filter (fun t => !(t.messageCount == 0)),
    messages := db.messages.filter (fun m => !(dead.contains m.threadId)) }

/-- The closing reclassification loop (routes.go lines 794-807): walk
the thread ids and rewrite each status; a classify error (absent thread)
skips the update. -/
def reclassifyAll (now : Int) (db : DB) : DB :=
  (db.threads.map ThreadRow.id).foldl (reclassifyStep now) db

/-- `storeMessagesInDB` (routes.go lines 686-830).  The Go map's
iteration order is unspecified; the model processes groups in
`groupByThread`'s key order. -/
def storeMessagesInDB (now : Int) (uuidCounter : Nat) (db : DB)
    (messages : List Message) : StoreState :=
  let threads := groupByThread messages
  let st := threads.foldl (processGroup now)
    { db := db, inserted := 0, uuidCounter := uuidCounter }
  let db1 := refreshStats st.db
  let db2 := deleteOrphans db1
  let db3 := reclassifyAll now db2
  { st with db := db3 }

theorem map_eq_self_of {α : Type} {l : List α} {f : α → α}
    (h : ∀ a ∈ l, f a = a) : l.map f = l := by
  induction l with
  | nil => rfl
  | cons a t ih =>
    rw [List.map_cons, h a (List.mem_cons_self a t),
      ih (fun b hb => h b (List.mem_cons_of_mem a hb))]

theorem message_update_eq (r : Message) (tid irt rt : String) (hp : Bool)
    (ps cf : String) (h1 : r.threadId = tid) (h2 : r.inReplyTo = irt)
    (h3 : r.refersTo = rt) (h4 : r.hasPatch = hp) (h5 : r.patchStatus = ps)
    (h6 : r.commitfestId = cf) :
    ({ r with
        threadId := tid,
        inReplyTo := irt,
        refersTo := rt,
        hasPatch := hp,
        patchStatus := ps,
        commitfestId := cf } : Message) = r := by
  cases r
  simp_all

theorem threadRow_agg_eq (t : ThreadRow) (mc ua : Int) (lm : Option Int)
    (h1 : t.messageCount = mc) (h2 : t.uniqueAuthors = ua)
    (h3 : t.lastMessageAt = lm) :
    ({ t with
        messageCount := mc,
        uniqueAuthors := ua,
        lastMessageAt := lm } : ThreadRow) = t := by
  cases t
  simp_all

theorem threadRow_status_eq (t : ThreadRow) (s : String)
    (h : t.status = s) : ({ t with status := s } : ThreadRow) = t := by
  cases t
  simp_all

/-- A conflicting upsert whose refreshed fields already hold the incoming
values leaves the store unchanged. -/
theorem upsertMessage_id (db : DB) (row : Message)
    (hex : ∃ r ∈ db.messages, r.messageId = row.messageId)
    (hall : ∀ r ∈ db.messages, r.messageId = row.messageId →
      r.threadId = row.threadId ∧ r.inReplyTo = row.inReplyTo ∧
      r.refersTo = row.refersTo ∧ r.hasPatch = row.hasPatch ∧
      r.patchStatus = row.patchStatus ∧ r.commitfestId = row.commitfestId) :
    upsertMessage db row = db := by
  have hany : (db.messages.any (fun r => r.messageId == row.messageId))
      = true := by
    obtain ⟨r, hr, he⟩ := hex
    exact List.any_eq_true.mpr ⟨r, hr, by simp [he]⟩
  unfold upsertMessage
  rw [if_pos hany]
  have hmap : db.messages.map (fun r =>
      if r.messageId == row.messageId then
        { r with
          threadId := row.threadId,
          inReplyTo := row.inReplyTo,
          refersTo := row.refersTo,
          hasPatch := row.hasPatch,
          patchStatus := row.patchStatus,
          commitfestId := row.commitfestId }
      else r) = db.messages := by
    refine map_eq_self_of (fun r hr => ?_)
    by_cases h : r.messageId = row.messageId
    · rw [if_pos (by simp [h])]
      obtain ⟨e1, e2, e3, e4, e5, e6⟩ := hall r hr h
      exact message_update_eq r _ _ _ _ _ _ e1 e2 e3 e4 e5 e6
    · rw [if_neg (by simp [h])]
  rw [hmap]

theorem updateThreadStatus_id (db : DB) (tid s : String)
    (h : ∀ t ∈ db.threads, t.id = tid → t.status = s) :
    updateThreadStatus db tid s = db := by
  unfold updateThreadStatus
  have hmap : db.threads.map (fun t =>
      if t.id == tid then { t with status := s } else t) = db.threads := by
    refine map_eq_self_of (fun t ht => ?_)
    by_cases hid : t.id = tid
    · rw [if_pos (by simp [hid])]
      exact threadRow_status_eq t s (h t ht hid)
    · rw [if_neg (by simp [hid])]
  rw [hmap]

theorem UpdateThreadActivity_id (db : DB) (tid : String)
    (h : ∀ t ∈ db.threads, t.id = tid →
      t.messageCount = threadMessageCount db tid ∧
      t.uniqueAuthors = threadUniqueAuthors db tid ∧
      t.lastMessageAt = threadLastMessage db tid) :
    UpdateThreadActivity db tid = db := by
  unfold UpdateThreadActivity
  dsimp only
  split_ifs with hempty
  · rfl
  · have hmap : db.threads.map (fun t =>
        if t.id == tid then
          { t with
            messageCount := threadMessageCount db tid,
            uniqueAuthors := threadUniqueAuthors db tid,
            lastMessageAt := threadLastMessage db tid }
        else t) = db.threads := by
      refine map_eq_self_of (fun t ht => ?_)
      by_cases hid : t.id = tid
      · rw [if_pos (by simp [hid])]
        obtain ⟨e1, e2, e3⟩ := h t ht hid
        exact threadRow_agg_eq t _ _ _ e1 e2 e3
      · rw [if_neg (by simp [hid])]
    rw [hmap]

theorem reclassifyStep_id (now : Int) (db : DB) (tid : String)
    (h : ∀ t ∈ db.threads, t.status = classifyThreadDB db now t.id) :
    reclassifyStep now db tid = db := by
  unfold reclassifyStep
  cases hf : db.threads.find? (fun t => t.id == tid) with
  | none => rfl
  | some t0 =>
    refine updateThreadStatus_id db tid _ (fun t ht hid => ?_)
    rw [h t ht, hid]

theorem refreshStats_id (db : DB)
    (h : ∀ t ∈ db.threads,
      t.messageCount = threadMessageCount db t.id ∧
      t.uniqueAuthors = threadUniqueAuthors db t.id ∧
      t.lastMessageAt = threadLastMessage db t.id) :
    refreshStats db = db := by
  unfold refreshStats
  have hmap : db.threads.map (fun t =>
      { t with
        messageCount := threadMessageCount db t.id,
        uniqueAuthors := threadUniqueAuthors db t.id,
        lastMessageAt := threadLastMessage db t.id }) = db.threads := by
    refine map_eq_self_of (fun t ht => ?_)
    obtain ⟨e1, e2, e3⟩ := h t ht
    exact threadRow_agg_eq t _ _ _ e1 e2 e3
  rw [hmap]

theorem deleteOrphans_id (db : DB)
    (h : ∀ t ∈ db.threads, ¬(t.messageCount = 0)) :
    deleteOrphans db = db := by
  unfold deleteOrphans
  have hdead : db.threads.filter (fun t => t.messageCount == 0) = [] := by
    rw [List.filter_eq_nil_iff]
    intro t ht
    simpa using h t ht
  have hthreads : db.threads.filter (fun t => !(t.messageCount == 0))
      = db.threads := by
    rw [List.filter_eq_self]
    intro t ht
    simpa using h t ht
  rw [hdead, hthreads]
  have hmsgs : db.messages.filter
      (fun m => !((([] : List ThreadRow).map ThreadRow.id).contains
        m.threadId)) = db.messages := by
    rw [List.filter_eq_self]
    intro m _
    rfl
  show DB.mk db.threads (db.messages.filter
      (fun m => !((([] : List ThreadRow).map ThreadRow.id).contains
        m.threadId))) = db
  rw [hmsgs]

theorem reclassifyAll_id (now : Int) (db : DB)
    (h : ∀ t ∈ db.threads, t.status = classifyThreadDB db now t.id) :
    reclassifyAll now db = db := by
  unfold reclassifyAll
  have hfold : ∀ (ids : List String),
      ids.foldl (reclassifyStep now) db = db := by
    intro ids
    induction ids with
    | nil => rfl
    | cons tid rest ih =>
      rw [List.foldl_cons, reclassifyStep_id now db tid h, ih]
  exact hfold _

theorem upsertFold_fst (tid : String) (db : DB) :
    ∀ (l : List Message) (n c : Nat),
      (∀ m ∈ l, (∃ r ∈ db.messages, r.messageId = m.messageId) ∧
        ∀ r ∈ db.messages, r.messageId = m.messageId →
          r.threadId = tid ∧ r.inReplyTo = m.inReplyTo ∧
          r.refersTo = m.refersTo ∧ r.hasPatch = m.hasPatch ∧
          r.patchStatus = m.patchStatus ∧
          r.commitfestId = m.commitfestId) →
      (l.foldl (upsertFold tid) (db, n, c)).1 = db := by
  intro l
  induction l with
  | nil =>
    intro n c _
    rfl
  | cons m t ih =>
    intro n c h
    rw [List.foldl_cons]
    have hm := h m (List.mem_cons_self m t)
    have hup : upsertMessage db
        { m with id := uuidName c, threadId := tid } = db := by
      refine upsertMessage_id db _ ?_ ?_
      · obtain ⟨⟨r, hr, he⟩, _⟩ := hm
        exact ⟨r, hr, he⟩
      · intro r hr he
        obtain ⟨_, hall⟩ := hm
        obtain ⟨e1, e2, e3, e4, e5, e6⟩ := hall r hr he
        exact ⟨e1, e2, e3, e4, e5, e6⟩
    have hstep : upsertFold tid (db, n, c) m = (db, n + 1, c + 1) := by
      unfold upsertFold
      dsimp only
      rw [hup]
    rw [hstep]
    exact ih (n + 1) (c + 1)
      (fun m' hm' => h m' (List.mem_cons_of_mem m hm'))

/-- A group already merged exactly as the store would merge it is
processed without changing the store. -/
theorem processGroup_id (now : Int) (st : StoreState)
    (g : String × List Message)
    (hres : resolveThreadId st.db g.1 (sortMessagesByTime g.2) ≠ "")
    (hmem : ∀ m ∈ sortMessagesByTime g.2,
      (∃ r ∈ st.db.messages, r.messageId = m.messageId) ∧
      ∀ r ∈ st.db.messages, r.messageId = m.messageId →
        r.threadId = resolveThreadId st.db g.1 (sortMessagesByTime g.2) ∧
        r.inReplyTo = m.inReplyTo ∧ r.refersTo = m.refersTo ∧
        r.hasPatch = m.hasPatch ∧ r.patchStatus = m.patchStatus ∧
        r.commitfestId = m.commitfestId)
    (hthr : ∀ t ∈ st.db.threads,
      t.messageCount = threadMessageCount st.db t.id ∧
      t.uniqueAuthors = threadUniqueAuthors st.db t.id ∧
      t.lastMessageAt = threadLastMessage st.db t.id ∧
      t.status = classifyThreadDB st.db now t.id) :
    (processGroup now st g).db = st.db := by
  unfold processGroup
  by_cases hempty : g.2.isEmpty
  · rw [if_pos hempty]
  · rw [if_neg hempty]
    dsimp only
    rw [if_neg hres]
    dsimp only
    have hfold : ((sortMessagesByTime g.2).foldl
        (upsertFold (resolveThreadId st.db g.1 (sortMessagesByTime g.2)))
        (st.db, st.inserted, st.uuidCounter)).1 = st.db :=
      upsertFold_fst _ st.db (sortMessagesByTime g.2) st.inserted
        st.uuidCounter hmem
    rw [hfold]
    rw [UpdateThreadActivity_id st.db _ (fun t ht hid => by
      obtain ⟨e1, e2, e3, _⟩ := hthr t ht
      rw [← hid]
      exact ⟨e1, e2, e3⟩)]
    exact reclassifyStep_id now st.db _ (fun t ht => (hthr t ht).2.2.2)

/-- C2 (amended): once a batch has been merged — every group resolves to
a (nonempty) thread id, every member's persisted row already carries that
thread id and the member's reference and derived patch fields, and every
thread row holds the recomputed aggregates, a nonzero count and its
current classification — re-ingesting the identical batch leaves the
persisted store exactly unchanged.  Without those conditions idempotence
can fail (see `storeMessagesInDB_not_idempotent`). -/
theorem storeMessagesInDB_idempotent (now : Int) (c : Nat) (db : DB)
    (msgs : List Message)
    (hthr : ∀ t ∈ db.threads,
      t.messageCount = threadMessageCount db t.id ∧
      t.uniqueAuthors = threadUniqueAuthors db t.id ∧
      t.lastMessageAt = threadLastMessage db t.id ∧
      ¬(t.messageCount = 0) ∧
      t.status = classifyThreadDB db now t.id)
    (hgrp : ∀ g ∈ groupByThread msgs,
      resolveThreadId db g.1 (sortMessagesByTime g.2) ≠ "" ∧
      ∀ m ∈ sortMessagesByTime g.2,
        (∃ r ∈ db.messages, r.messageId = m.messageId) ∧
        ∀ r ∈ db.messages, r.messageId = m.messageId →
          r.threadId = resolveThreadId db g.1 (sortMessagesByTime g.2) ∧
          r.inReplyTo = m.inReplyTo ∧ r.refersTo = m.refersTo ∧
          r.hasPatch = m.hasPatch ∧ r.patchStatus = m.patchStatus ∧
          r.commitfestId = m.commitfestId) :
    (storeMessagesInDB now c db msgs).db = db := by
  have hfoldgroups : ∀ (gs : List (String × List Message)),
      (∀ g ∈ gs, g ∈ groupByThread msgs) → ∀ (st : StoreState),
      st.db = db → ((gs.foldl (processGroup now) st).db = db) := by
    intro gs
    induction gs with
    | nil =>
      intro _ st hst
      exact hst
    | cons g t ih =>
      intro hsub st hst
      rw [List.foldl_cons]
      have hg := hsub g (List.mem_cons_self g t)
      have hid : (processGroup now st g).db = db := by
        have hpg : (processGroup now st g).db = st.db := by
          refine processGroup_id now st g ?_ ?_ ?_
          · rw [hst]
            exact (hgrp g hg).1
          · rw [hst]
            exact (hgrp g hg).2
          · rw [hst]
            intro t' ht'
            obtain ⟨e1, e2, e3, _, e5⟩ := hthr t' ht'
            exact ⟨e1, e2, e3, e5⟩
        exact hpg.trans hst
      exact ih (fun g' hg' => hsub g' (List.mem_cons_of_mem g hg'))
        (processGroup now st g) hid
  have hST : ((groupByThread msgs).foldl (processGroup now)
      ⟨db, 0, c⟩).db = db :=
    hfoldgroups (groupByThread msgs) (fun _ hg => hg) ⟨db, 0, c⟩ rfl
  show reclassifyAll now (deleteOrphans (refreshStats
    ((groupByThread msgs).foldl (processGroup now) ⟨db, 0, c⟩).db)) = db
  rw [hST]
  rw [refreshStats_id db (fun t ht => by
    obtain ⟨e1, e2, e3, _, _⟩ := hthr t ht
    exact ⟨e1, e2, e3⟩)]
  rw [deleteOrphans_id db (fun t ht => (hthr t ht).2.2.2.1)]
  exact reclassifyAll_id now db (fun t ht => (hthr t ht).2.2.2.2)

/-- The C6 invariant: every persisted thread row's aggregates equal the
values recomputed from the persisted messages, and its recomputed count
is nonzero. -/
def reconciled (db : DB) : Prop :=
  ∀ t ∈ db.threads,
    t.messageCount = threadMessageCount db t.id ∧
    t.uniqueAuthors = threadUniqueAuthors db t.id ∧
    t.lastMessageAt = threadLastMessage db t.id ∧
    ¬(t.messageCount = 0)

theorem agg_congr {db db' : DB} (h : db.messages = db'.messages)
    (tid : String) :
    threadMessageCount db tid = threadMessageCount db' tid ∧
    threadUniqueAuthors db tid = threadUniqueAuthors db' tid ∧
    threadLastMessage db tid = threadLastMessage db' tid := by
  unfold threadMessageCount threadUniqueAuthors threadLastMessage
    threadMessages
  rw [h]
  exact ⟨rfl, rfl, rfl⟩

theorem reconciled_updateStatus (db : DB) (tid s : String)
    (h : reconciled db) : reconciled (updateThreadStatus db tid s) := by
  intro t' ht'
  obtain ⟨t, ht, heq⟩ := List.mem_map.mp ht'
  obtain ⟨e1, e2, e3, e4⟩ := h t ht
  obtain ⟨c1, c2, c3⟩ :=
    agg_congr (show (updateThreadStatus db tid s).messages = db.messages
      from rfl) t.id
  by_cases hid : (t.id == tid) = true
  · rw [if_pos hid] at heq
    subst heq
    exact ⟨e1.trans c1.symm, e2.trans c2.symm, e3.trans c3.symm, e4⟩
  · rw [if_neg hid] at heq
    subst heq
    exact ⟨e1.trans c1.symm, e2.trans c2.symm, e3.trans c3.symm, e4⟩

theorem reconciled_reclassifyStep (now : Int) (db : DB) (tid : String)
    (h : reconciled db) : reconciled (reclassifyStep now db tid) := by
  unfold reclassifyStep
  split
  · exact h
  · exact reconciled_updateStatus db tid _ h

theorem reconciled_foldSteps (now : Int) :
    ∀ (ids : List String) (db : DB), reconciled db →
      reconciled (ids.foldl (reclassifyStep now) db) := by
  intro ids
  induction ids with
  | nil =>
    intro db h
    exact h
  | cons tid rest ih =>
    intro db h
    rw [List.foldl_cons]
    exact ih _ (reconciled_reclassifyStep now db tid h)

theorem reconciled_reclassifyAll (now : Int) (db : DB)
    (h : reconciled db) : reconciled (reclassifyAll now db) :=
  reconciled_foldSteps now _ db h

theorem reconciled_refresh_delete (db : DB) :
    reconciled (deleteOrphans (refreshStats db)) := by
  have hRmsg : (refreshStats db).messages = db.messages := rfl
  have hRthreads : ∀ t' ∈ (refreshStats db).threads,
      t'.messageCount = threadMessageCount db t'.id ∧
      t'.uniqueAuthors = threadUniqueAuthors db t'.id ∧
      t'.lastMessageAt = threadLastMessage db t'.id := by
    intro t' ht'
    obtain ⟨t, _, heq⟩ := List.mem_map.mp ht'
    subst heq
    exact ⟨rfl, rfl, rfl⟩
  have hnomsg : ∀ m ∈ (refreshStats db).messages,
      ((((refreshStats db).threads.filter
        (fun t => t.messageCount == 0)).map ThreadRow.id).contains
          m.threadId) = false := by
    intro m hm
    by_contra hcon
    have hmem : m.threadId ∈ ((refreshStats db).threads.filter
        (fun t => t.messageCount == 0)).map ThreadRow.id := by
      have := Bool.of_not_eq_false hcon
      simpa [List.contains_iff_exists_mem_beq] using this
    obtain ⟨t', ht', hid⟩ := List.mem_map.mp hmem
    have ht'' := List.mem_filter.mp ht'
    have hz : t'.messageCount = 0 := by simpa using ht''.2
    obtain ⟨hc, _, _⟩ := hRthreads t' ht''.1
    rw [hc] at hz
    unfold threadMessageCount at hz
    have hlen : (threadMessages db t'.id).length = 0 := by
      exact_mod_cast hz
    have hniln : threadMessages db t'.id = [] :=
      List.length_eq_zero.mp hlen
    have hmth : m ∈ threadMessages db t'.id := by
      unfold threadMessages
      refine List.mem_filter.mpr ⟨hRmsg ▸ hm, ?_⟩
      simp [hid]
    rw [hniln] at hmth
    exact List.not_mem_nil m hmth
  have hmsgs : (deleteOrphans (refreshStats db)).messages
      = (refreshStats db).messages := by
    unfold deleteOrphans
    dsimp only
    refine List.filter_eq_self.mpr (fun m hm => ?_)
    rw [hnomsg m hm]
    rfl
  intro t' ht'
  have ht'2 : t' ∈ (refreshStats db).threads ∧
      (!(t'.messageCount == 0)) = true := by
    have := List.mem_filter.mp ht'
    exact ⟨this.1, this.2⟩
  obtain ⟨e1, e2, e3⟩ := hRthreads t' ht'2.1
  obtain ⟨c1, c2, c3⟩ := agg_congr
    (show (deleteOrphans (refreshStats db)).messages = db.messages
      from hmsgs.trans hRmsg) t'.id
  refine ⟨e1.trans c1.symm, e2.trans c2.symm, e3.trans c3.symm, ?_⟩
  simpa using ht'2.2

/-- C6: after every completed `storeMessagesInDB` call, every surviving
thread row carries exactly the aggregates recomputed from the persisted
messages — message count, distinct author count and latest timestamp —
and every thread whose recomputed message count is zero has been
deleted. -/
theorem storeMessagesInDB_reconciles (now : Int) (c : Nat) (db : DB)
    (msgs : List Message) :
    ∀ t ∈ (storeMessagesInDB now c db msgs).db.threads,
      t.messageCount
        = threadMessageCount (storeMessagesInDB now c db msgs).db t.id ∧
      t.uniqueAuthors
        = threadUniqueAuthors (storeMessagesInDB now c db msgs).db t.id ∧
      t.lastMessageAt
        = threadLastMessage (storeMessagesInDB now c db msgs).db t.id ∧
      ¬(t.messageCount = 0) :=
  reconciled_reclassifyAll now _ (reconciled_refresh_delete
    (((groupByThread msgs).foldl (processGroup now) ⟨db, 0, c⟩).db))

/-- C8: when the incoming message's `message_id` conflicts with a
persisted row, no duplicate row is created and the thread table is not
touched; every persisted row keeps its `id`, `subject`, `author`,
`author_email`, `body` and `created_at`; a non-conflicting row is left
entirely alone, and the conflicting rows get exactly the refreshed
`thread_id`, reference and derived patch fields. -/
theorem upsertMessage_conflict_frame (db : DB) (row : Message)
    (hex : ∃ r ∈ db.messages, r.messageId = row.messageId) :
    ((upsertMessage db row).messages.length = db.messages.length) ∧
    ((upsertMessage db row).threads = db.threads) ∧
    ∀ r ∈ db.messages, ∃ r' ∈ (upsertMessage db row).messages,
      r'.id = r.id ∧ r'.subject = r.subject ∧ r'.author = r.author ∧
      r'.authorEmail = r.authorEmail ∧ r'.body = r.body ∧
      r'.createdAt = r.createdAt ∧
      (r.messageId ≠ row.messageId → r' = r) ∧
      (r.messageId = row.messageId →
        r'.threadId = row.threadId ∧ r'.inReplyTo = row.inReplyTo ∧
        r'.refersTo = row.refersTo ∧ r'.hasPatch = row.hasPatch ∧
        r'.patchStatus = row.patchStatus ∧
        r'.commitfestId = row.commitfestId) := by
  have hany : (db.messages.any (fun r => r.messageId == row.messageId))
      = true := by
    obtain ⟨r, hr, he⟩ := hex
    exact List.any_eq_true.mpr ⟨r, hr, by simp [he]⟩
  unfold upsertMessage
  rw [if_pos hany]
  refine ⟨by simp, rfl, ?_⟩
  intro r hr
  refine ⟨_, List.mem_map.mpr ⟨r, hr, rfl⟩, ?_⟩
  by_cases h : r.messageId = row.messageId
  · rw [if_pos (by simp [h])]
    exact ⟨rfl, rfl, rfl, rfl, rfl, rfl, fun hne => absurd h hne,
      fun _ => ⟨rfl, rfl, rfl, rfl, rfl, rfl⟩⟩
  · rw [if_neg (by simp [h])]
    exact ⟨rfl, rfl, rfl, rfl, rfl, rfl, fun _ => rfl,
      fun he => absurd he h⟩

def msgRowOld : Message :=
  { id := "orig-id", threadId := "t0", messageId := "m@x",
    subject := "old subject", author := "Old", authorEmail := "old@x",
    body := "old body", createdAt := some 1600000000 }

def msgRowNew : Message :=
  { id := "new-id", threadId := "t1", messageId := "m@x",
    inReplyTo := "p@x", refersTo := "<p@x>", subject := "new subject",
    author := "New", authorEmail := "new@x", body := "new body",
    createdAt := some 1700000000, hasPatch := true,
    patchStatus := "proposed", commitfestId := "42" }

def dbConflict : DB :=
  { threads := [], messages := [msgRowOld] }

theorem upsertMessage_conflict_frame_witness :
    (∃ r ∈ dbConflict.messages, r.messageId = msgRowNew.messageId) ∧
    (((upsertMessage dbConflict msgRowNew).messages.length
        = dbConflict.messages.length) ∧
      ((upsertMessage dbConflict msgRowNew).threads
        = dbConflict.threads) ∧
      ∀ r ∈ dbConflict.messages,
        ∃ r' ∈ (upsertMessage dbConflict msgRowNew).messages,
          r'.id = r.id ∧ r'.subject = r.subject ∧ r'.author = r.author ∧
          r'.authorEmail = r.authorEmail ∧ r'.body = r.body ∧
          r'.createdAt = r.createdAt ∧
          (r.messageId ≠ msgRowNew.messageId → r' = r) ∧
          (r.messageId = msgRowNew.messageId →
            r'.threadId = msgRowNew.threadId ∧
            r'.inReplyTo = msgRowNew.inReplyTo ∧
            r'.refersTo = msgRowNew.refersTo ∧
            r'.hasPatch = msgRowNew.hasPatch ∧
            r'.patchStatus = msgRowNew.patchStatus ∧
            r'.commitfestId = msgRowNew.commitfestId)) :=
  ⟨by decide, upsertMessage_conflict_frame dbConflict msgRowNew
    (by decide)⟩

/-- The batch message used by the concrete store runs. -/
def msgStore : Message :=
  { messageId := "m@x", subject := "s", author := "A",
    authorEmail := "a@x", body := "hello", createdAt := some 1700000000 }

/-- C7: `storeMessagesInDB` does not return the number of newly inserted
messages.  Storing the batch `[msgStore]` twice: the second call leaves
the persisted message rows exactly as they were — zero rows are newly
inserted — yet it still returns 1, because a conflicting upsert reports
`RowsAffected = 1` just as an insert does, and the code sums
`RowsAffected`. -/
theorem storeMessagesInDB_recount_bug :
    (storeMessagesInDB 1700000000
        (storeMessagesInDB 1700000000 0 {} [msgStore]).uuidCounter
        (storeMessagesInDB 1700000000 0 {} [msgStore]).db
        [msgStore]).db.messages
      = (storeMessagesInDB 1700000000 0 {} [msgStore]).db.messages ∧
    (storeMessagesInDB 1700000000
        (storeMessagesInDB 1700000000 0 {} [msgStore]).uuidCounter
        (storeMessagesInDB 1700000000 0 {} [msgStore]).db
        [msgStore]).inserted = 1 := by
  exact ⟨rfl, rfl⟩

def threadEmptyId : ThreadRow :=
  { id := "", firstMessageId := "m@x", messageCount := 1 }

def msgOrphan : Message :=
  { messageId := "x@x", threadId := "", createdAt := some 1600000000 }

def dbEmptyId : DB :=
  { threads := [threadEmptyId], messages := [msgOrphan] }

/-- C2 counterexample: with a persisted thread row whose id is Go's zero
string and whose `first_message_id` matches the batch's root, thread
resolution keeps yielding the empty id, so each ingestion creates a
fresh thread and re-points the batch's message rows at it: the second
ingestion of the identical batch changes the persisted message rows. -/
theorem storeMessagesInDB_not_idempotent :
    (storeMessagesInDB 1700000000
        (storeMessagesInDB 1700000000 0 dbEmptyId [msgStore]).uuidCounter
        (storeMessagesInDB 1700000000 0 dbEmptyId [msgStore]).db
        [msgStore]).db.messages
      ≠ (storeMessagesInDB 1700000000 0 dbEmptyId [msgStore]).db.messages
    := by
  decide

def mergedThread : ThreadRow :=
  { id := "uuid-0", subject := "s", firstMessageId := "m@x",
    firstAuthor := "A", firstAuthorEmail := "a@x",
    createdAt := 1700000000, lastMessageAt := some 1700000000,
    messageCount := 1, uniqueAuthors := 1, status := "discussion" }

def mergedRow : Message :=
  { id := "uuid-1", threadId := "uuid-0", messageId := "m@x",
    subject := "s", author := "A", authorEmail := "a@x",
    body := "hello", createdAt := some 1700000000 }

def mergedDB : DB :=
  { threads := [mergedThread], messages := [mergedRow] }

theorem storeMessagesInDB_idempotent_witness :
    ((∀ t ∈ mergedDB.threads,
        t.messageCount = threadMessageCount mergedDB t.id ∧
        t.uniqueAuthors = threadUniqueAuthors mergedDB t.id ∧
        t.lastMessageAt = threadLastMessage mergedDB t.id ∧
        ¬(t.messageCount = 0) ∧
        t.status = classifyThreadDB mergedDB 1700000000 t.id) ∧
      (∀ g ∈ groupByThread [msgStore],
        resolveThreadId mergedDB g.1 (sortMessagesByTime g.2) ≠ "" ∧
        ∀ m ∈ sortMessagesByTime g.2,
          (∃ r ∈ mergedDB.messages, r.messageId = m.messageId) ∧
          ∀ r ∈ mergedDB.messages, r.messageId = m.messageId →
            r.threadId
              = resolveThreadId mergedDB g.1 (sortMessagesByTime g.2) ∧
            r.inReplyTo = m.inReplyTo ∧ r.refersTo = m.refersTo ∧
            r.hasPatch = m.hasPatch ∧ r.patchStatus = m.patchStatus ∧
            r.commitfestId = m.commitfestId)) ∧
    (storeMessagesInDB 1700000000 2 mergedDB [msgStore]).db = mergedDB :=
  ⟨⟨by decide, by decide⟩,
    storeMessagesInDB_idempotent 1700000000 2 mergedDB [msgStore]
      (by decide) (by decide)⟩

theorem storeMessagesInDB_reconciles_witness :
    mergedThread
      ∈ (storeMessagesInDB 1700000000 0 {} [msgStore]).db.threads ∧
    (mergedThread.messageCount
        = threadMessageCount
          (storeMessagesInDB 1700000000 0 {} [msgStore]).db
          mergedThread.id ∧
      mergedThread.uniqueAuthors
        = threadUniqueAuthors
          (storeMessagesInDB 1700000000 0 {} [msgStore]).db
          mergedThread.id ∧
      mergedThread.lastMessageAt
        = threadLastMessage
          (storeMessagesInDB 1700000000 0 {} [msgStore]).db
          mergedThread.id ∧
      ¬(mergedThread.messageCount = 0)) :=
  ⟨by decide, storeMessagesInDB_reconciles 1700000000 0 {} [msgStore]
    mergedThread (by decide)⟩

end PgHackers
